import Mathlib

/-!
The package `pkg/mdns` of go2rtc: record mapper and discovery loop.

A shallow embedding of `src/pkg/mdns/mdns.go`.

* Go strings are embedded as Lean `String`s and the functions of package `strings` that the
  code calls are defined on the character lists.  This covers the strings that are valid
  UTF-8.  The only separators the code searches for, `'.'` and `"="`, are ASCII, so splitting
  at a byte index and splitting at a character index give the same pieces, and a string is a
  byte suffix of another exactly when it is a character suffix of it.
* `dns.RR` is an interface; the embedding keeps the four concrete record types the code
  switches on and one constructor for every other type.
* `net.IP` is a byte slice that may be `nil`: `Option (List Nat)`.
* `map[string]string` that may be `nil`: `Option GoMap`, where a `GoMap` is an association
  list with unique keys; assignment `m[k] = v` is `GoMap.set`.
-/

namespace Mdns

/-! ## Package `strings` -/

/-- Go `strings.HasSuffix(s, suffix)`:
`len(s) >= len(suffix) && s[len(s)-len(suffix):] == suffix`. -/
def HasSuffix (s suffix : String) : Bool :=
  decide (suffix.data.length ≤ s.data.length) &&
    decide (s.data.drop (s.data.length - suffix.data.length) = suffix.data)

/-- Search of `sep` in `s` from offset `i`: the offset of the first occurrence, `-1` if none. -/
def indexFrom (sep : List Char) : List Char → Nat → Int
  | [], i => if sep = [] then (i : Int) else -1
  | c :: cs, i => if sep.isPrefixOf (c :: cs) = true then (i : Int) else indexFrom sep cs (i + 1)

/-- Go `strings.Index(s, substr)`: index of the first instance of `substr` in `s`, or `-1`. -/
def Index (s substr : String) : Int :=
  indexFrom substr.data s.data 0

/-- Go `strings.IndexByte(s, c)`: index of the first instance of `c` in `s`, or `-1`. -/
def IndexByte (s : String) (c : Char) : Int :=
  indexFrom [c] s.data 0

/-- Go slice expression `s[:i]`. -/
def sliceTo (s : String) (i : Nat) : String := ⟨s.data.take i⟩

/-- Go slice expression `s[i:]`. -/
def sliceFrom (s : String) (i : Nat) : String := ⟨s.data.drop i⟩

/-- Go `strings.Cut(s, sep)`:
`if i := Index(s, sep); i >= 0 { return s[:i], s[i+len(sep):], true }; return s, "", false`. -/
def Cut (s sep : String) : String × String × Bool :=
  let i := Index s sep
  if 0 ≤ i then (sliceTo s i.toNat, sliceFrom s (i.toNat + sep.data.length), true)
  else (s, "", false)

/-! ## Maps -/

/-- A Go `map[string]string` value (non-nil): association list, keys unique. -/
abbrev GoMap := List (String × String)

namespace GoMap

/-- Map read `m[k]` with the comma-ok form: `none` when the key is absent. -/
def get : GoMap → String → Option String
  | [], _ => none
  | (k', v) :: m, k => if k' = k then some v else get m k

/-- Map assignment `m[k] = v`. -/
def set : GoMap → String → String → GoMap
  | [], k, v => [(k, v)]
  | (k', v') :: m, k, v => if k' = k then (k, v) :: m else (k', v') :: set m k v

/-- The keys of the map. -/
def keys (m : GoMap) : List String := m.map Prod.fst

end GoMap

/-! ## DNS messages (the part of `github.com/miekg/dns` the code reads) -/

/-- A resource record `dns.RR`, by concrete type. -/
inductive RR where
  /-- A `*dns.PTR` with its field `Ptr`. -/
  | PTR (Ptr : String)
  /-- A `*dns.A` with its field `A` (a `net.IP`, possibly nil). -/
  | A (A : Option (List Nat))
  /-- A `*dns.SRV` with its field `Port` (a `uint16`). -/
  | SRV (Port : Nat)
  /-- A `*dns.TXT` with its field `Txt`. -/
  | TXT (Txt : List String)
  /-- Any other record type, identified by its type code. -/
  | other (rrtype : Nat)
  deriving DecidableEq, Repr

/-- The sections of `dns.Msg` that the code reads. -/
structure Msg where
  Answer : List RR
  Ns : List RR
  Extra : List RR
  deriving DecidableEq, Repr

/-- The struct `ServiceEntry`. `Port` is a `uint16`; the code only copies and compares it. -/
structure ServiceEntry where
  Name : String
  IP : Option (List Nat)
  Port : Nat
  Info : Option GoMap
  deriving DecidableEq, Repr

/-- The zero value `&ServiceEntry{}`. -/
def ServiceEntry.zero : ServiceEntry := ⟨"", none, 0, none⟩

/-- The method `func (e *ServiceEntry) Complete() bool`:
`e.IP != nil && e.Port > 0 && e.Info != nil`. -/
def ServiceEntry.Complete (e : ServiceEntry) : Bool :=
  e.IP.isSome && decide (e.Port > 0) && e.Info.isSome

/-- The loop of `GetPTR` over `msg.Answer`: the `Ptr` of the first `*dns.PTR`, else `""`. -/
def GetPTR.go : List RR → String
  | [] => ""
  | RR.PTR p :: _ => p
  | _ :: rest => GetPTR.go rest

/-- The function `func GetPTR(msg *dns.Msg) string`. -/
def GetPTR (msg : Msg) : String := GetPTR.go msg.Answer

/-- The inner loop of the `*dns.TXT` case: `k, v, _ := strings.Cut(txt, "="); entry.Info[k] = v`. -/
def txtInfo.go (m : GoMap) : List String → GoMap
  | [] => m
  | txt :: rest => txtInfo.go (m.set (Cut txt "=").1 (Cut txt "=").2.1) rest

/-- The `*dns.TXT` case: `make(map[string]string, len(record.Txt))` filled by the inner loop. -/
def txtInfo (Txt : List String) : GoMap := txtInfo.go [] Txt

/-- One iteration of the `for _, record := range records` loop of `NewServiceEntry`. -/
def NewServiceEntry.step (entry : ServiceEntry) : RR → ServiceEntry
  | RR.PTR Ptr =>
    let i := IndexByte Ptr '.'
    if i > 0 then { entry with Name := sliceTo Ptr i.toNat } else entry
  | RR.A A => { entry with IP := A }
  | RR.SRV Port => { entry with Port := Port }
  | RR.TXT Txt => { entry with Info := some (txtInfo Txt) }
  | RR.other _ => entry

/-- The slice `records` of `NewServiceEntry`: `msg.Answer`, `msg.Ns`, `msg.Extra` appended. -/
def records (msg : Msg) : List RR := msg.Answer ++ msg.Ns ++ msg.Extra

/-- The function `func NewServiceEntry(msg *dns.Msg) *ServiceEntry`. -/
def NewServiceEntry (msg : Msg) : ServiceEntry :=
  (records msg).foldl NewServiceEntry.step ServiceEntry.zero

/-! ## The discovery session -/

/-- A Go `error` value coming from the network or from the codec. -/
inductive Err where
  /-- The deadline set on the socket has elapsed (`os.ErrDeadlineExceeded`). -/
  | deadlineExceeded
  /-- Any other error, with its text. -/
  | other (text : String)
  deriving DecidableEq, Repr

/-- The result of one `conn.ReadFromUDP(b2)`. -/
inductive ReadResult where
  /-- The read returned `err == nil`; the datagram is `b2[:n]`. -/
  | data (b : List Nat)
  /-- The read returned `err != nil`. -/
  | fail (err : Err)
  deriving DecidableEq, Repr

/-- What `Discovery` gets from the outside: the results of the socket calls and the wire codec.
`reads` lists the results of the successive `ReadFromUDP` calls; once the list is used up the
next read blocks until the deadline set by `SetDeadline` and fails with `deadlineExceeded`.
The broadcaster goroutine only writes to the socket and shares no variable with the reader;
what it causes on the network is part of `reads`. -/
structure Net where
  /-- The error of `net.ListenMulticastUDP("udp4", nil, addr)`, `none` for `nil`. -/
  ListenMulticastUDP : Option Err
  /-- The error of `conn.SetDeadline(...)`. -/
  SetDeadline : Option Err
  /-- The error of `msg.Pack()` for the PTR question on the service. -/
  Pack : String → Option Err
  /-- The codec `msg.Unpack(b2[:n])`: `none` when it returns an error. -/
  Unpack : List Nat → Option Msg
  /-- The results of the successive reads. -/
  reads : List ReadResult

/-- One invocation of the callback, as observed from outside. -/
structure Call where
  /-- How many reads had been made before the one that delivered the datagram. -/
  idx : Nat
  /-- The unpacked message of that datagram. -/
  msg : Msg
  /-- The entry passed to `onentry`. -/
  entry : ServiceEntry
  /-- What `onentry` returned. -/
  stop : Bool
  deriving DecidableEq, Repr

/-- What the `loop:` of `Discovery` did: the callback invocations in order, the number of
`ReadFromUDP` calls made, and the state of the callback afterwards. -/
structure LoopEnd (σ : Type) where
  calls : List Call
  nreads : Nat
  state : σ

/-- The `loop:` of `Discovery`.  `n` counts the reads made so far, `skipPTR` is the slice of
the same name, `s` the state the closure `onentry` carries.  A read that fails, by the
deadline when the reads are used up, is the `break` on `err != nil`; a datagram that does
not unpack, whose pointer name lacks the suffix or is in `skipPTR` is a `continue`; a
callback that returns true is the second `break`; otherwise the pointer name is appended to
`skipPTR`. -/
def Discovery.loop {σ : Type} (service : String) (Unpack : List Nat → Option Msg)
    (onentry : σ → ServiceEntry → Bool × σ) :
    List ReadResult → Nat → List String → σ → LoopEnd σ
  | [], n, _, s => ⟨[], n + 1, s⟩
  | ReadResult.fail _ :: _, n, _, s => ⟨[], n + 1, s⟩
  | ReadResult.data b :: rest, n, skipPTR, s =>
    match Unpack b with
    | none => Discovery.loop service Unpack onentry rest (n + 1) skipPTR s
    | some msg =>
      let ptr := GetPTR msg
      if HasSuffix ptr service = false then
        Discovery.loop service Unpack onentry rest (n + 1) skipPTR s
      else if ptr ∈ skipPTR then
        Discovery.loop service Unpack onentry rest (n + 1) skipPTR s
      else
        let entry := NewServiceEntry msg
        let r := onentry s entry
        if r.1 = true then ⟨[⟨n, msg, entry, true⟩], n + 1, r.2⟩
        else
          let o := Discovery.loop service Unpack onentry rest (n + 1) (skipPTR ++ [ptr]) r.2
          ⟨⟨n, msg, entry, false⟩ :: o.calls, o.nreads, o.state⟩

/-- What one call of `Discovery` did: the returned `error` and what the loop did. -/
structure Outcome (σ : Type) where
  err : Option Err
  calls : List Call
  nreads : Nat
  state : σ

/-- The function `func Discovery(service string, onentry func(*ServiceEntry) bool) error`.
The closure `onentry` may carry state: it is a function of its state `s` and of the entry.
Each of the three setup steps returns its error at once; after the loop the result is nil. -/
def Discovery {σ : Type} (net : Net) (service : String)
    (onentry : σ → ServiceEntry → Bool × σ) (s : σ) : Outcome σ :=
  match net.ListenMulticastUDP with
  | some err => ⟨some err, [], 0, s⟩
  | none =>
    match net.SetDeadline with
    | some err => ⟨some err, [], 0, s⟩
    | none =>
      match net.Pack service with
      | some err => ⟨some err, [], 0, s⟩
      | none =>
        let o := Discovery.loop service net.Unpack onentry net.reads 0 [] s
        ⟨none, o.calls, o.nreads, o.state⟩

/-- A setup in which the socket is bound, the deadline set and the query packed. -/
def Net.setupOk (net : Net) (service : String) : Prop :=
  net.ListenMulticastUDP = none ∧ net.SetDeadline = none ∧ net.Pack service = none

/-- Whether the record is a `*dns.PTR`. -/
def RR.isPTR : RR → Bool
  | RR.PTR _ => true
  | _ => false

/-- Whether the record is a `*dns.A`. -/
def RR.isA : RR → Bool
  | RR.A _ => true
  | _ => false

/-- Whether the record is a `*dns.SRV`. -/
def RR.isSRV : RR → Bool
  | RR.SRV _ => true
  | _ => false

/-- Whether the record is a `*dns.TXT`. -/
def RR.isTXT : RR → Bool
  | RR.TXT _ => true
  | _ => false

/-- Key of a text entry in the words of the specification: the part before the first `=`
of the entry, the whole entry when it has no `=`. -/
def entryKey (txt : String) : String := ⟨txt.data.takeWhile (fun c => c != '=')⟩

/-- Value of a text entry in the words of the specification: the part after the first `=`
of the entry (it keeps any later `=`), the empty string when the entry has no `=`. -/
def entryValue (txt : String) : String := ⟨(txt.data.dropWhile (fun c => c != '=')).drop 1⟩

/-- The part of a callback invocation that the callback and the caller can see: the entry
passed and the value returned (with the message the entry was built from). -/
def Call.seen (c : Call) : Msg × ServiceEntry × Bool := (c.msg, c.entry, c.stop)

/-- The relation `InsertedMalformed Unpack reads reads'` holds when `reads'` is `reads` with
datagrams that fail to unpack inserted at some positions. -/
inductive InsertedMalformed (Unpack : List Nat → Option Msg) :
    List ReadResult → List ReadResult → Prop where
  | nil : InsertedMalformed Unpack [] []
  | keep (r : ReadResult) {xs ys : List ReadResult} :
      InsertedMalformed Unpack xs ys → InsertedMalformed Unpack (r :: xs) (r :: ys)
  | insert (b : List Nat) {xs ys : List ReadResult} :
      Unpack b = none → InsertedMalformed Unpack xs ys →
      InsertedMalformed Unpack xs (ReadResult.data b :: ys)

/-- The same session with other results of the reads. -/
def Net.withReads (net : Net) (reads : List ReadResult) : Net :=
  ⟨net.ListenMulticastUDP, net.SetDeadline, net.Pack, net.Unpack, reads⟩

/-- The constant `ServiceHAP`. -/
def ServiceHAP : String := "_hap._tcp.local."

/-! ## Concrete sessions used to evaluate the definitions -/

/-- An answer of the accessory `cam` with address, port and text records. -/
def demoCam : Msg :=
  ⟨[RR.PTR "cam._hap._tcp.local."], [],
    [RR.A (some [192, 0, 2, 5]), RR.SRV 80, RR.TXT ["foo=bar", "baz"]]⟩

/-- Another answer of the accessory `cam`, with other records. -/
def demoCamAgain : Msg :=
  ⟨[RR.PTR "cam._hap._tcp.local."], [], [RR.A (some [192, 0, 2, 6])]⟩

/-- An answer of the accessory `door`. -/
def demoDoor : Msg :=
  ⟨[RR.PTR "door._hap._tcp.local."], [], [RR.SRV 8080]⟩

/-- An answer for another service. -/
def demoTv : Msg :=
  ⟨[RR.PTR "tv._airplay._tcp.local."], [], []⟩

/-- A codec that knows four datagrams and fails on every other one. -/
def demoUnpack : List Nat → Option Msg
  | [1] => some demoCam
  | [2] => some demoCamAgain
  | [3] => some demoDoor
  | [4] => some demoTv
  | _ => none

/-- A session with a successful setup and the given reads. -/
def demoNet (reads : List ReadResult) : Net :=
  ⟨none, none, fun _ => none, demoUnpack, reads⟩

/-- A callback that never accepts and counts its invocations. -/
def neverAccept (s : Nat) (_ : ServiceEntry) : Bool × Nat := (false, s + 1)

/-- A callback that accepts the first entry with a port and counts its invocations. -/
def acceptPort (s : Nat) (e : ServiceEntry) : Bool × Nat := (decide (e.Port > 0), s + 1)

/-! ## Definitions used to state the claims on unknown records and on the order of entries -/

/-- Whether the record has one of the four types `NewServiceEntry` switches on. -/
def RR.isKnown (r : RR) : Bool := r.isPTR || r.isA || r.isSRV || r.isTXT

/-- A callback that is a function of the entry: it carries no state. -/
def pureCallback (f : ServiceEntry → Bool) (s : Unit) (e : ServiceEntry) : Bool × Unit :=
  (f e, s)

/-- Reference, in the words of the specification: the datagrams read before the first read
failure, in arrival order. -/
def readBeforeFailure : List ReadResult → List (List Nat)
  | [] => []
  | ReadResult.fail _ :: _ => []
  | ReadResult.data b :: rest => b :: readBeforeFailure rest

/-- Reference, in the words of the specification: the messages that are the first occurrence
of their pointer name, in order. -/
def firstOccurrences : List Msg → List Msg
  | [] => []
  | m :: ms => m :: (firstOccurrences ms).filter (fun m' => decide (GetPTR m' ≠ GetPTR m))

/-- Reference, in the words of the specification: the entries up to and including the first
one for which the callback returns true. -/
def cutAfter (f : ServiceEntry → Bool) : List ServiceEntry → List ServiceEntry
  | [] => []
  | e :: es => if f e = true then [e] else e :: cutAfter f es

/-- Reference, in the words of the specification: the messages of the datagrams read before
the first read failure that unpack and whose pointer name ends with the service name. -/
def matchingMessages (service : String) (Unpack : List Nat → Option Msg)
    (reads : List ReadResult) : List Msg :=
  ((readBeforeFailure reads).filterMap Unpack).filter (fun m => HasSuffix (GetPTR m) service)

/-- Reference, in the words of the specification, for the entries passed to the callback:
`NewServiceEntry` of each datagram read before the first read failure that unpacks, whose
pointer name ends with the service name and is the first occurrence of that pointer name,
cut off after the first entry for which the callback returns true. -/
def referenceEntries (service : String) (Unpack : List Nat → Option Msg)
    (f : ServiceEntry → Bool) (reads : List ReadResult) : List ServiceEntry :=
  cutAfter f ((firstOccurrences (matchingMessages service Unpack reads)).map NewServiceEntry)

/-- Whether the read delivered a datagram. -/
def ReadResult.isData : ReadResult → Bool
  | ReadResult.data _ => true
  | ReadResult.fail _ => false

/-- A callback that accepts the entries with a port. -/
def hasPort (e : ServiceEntry) : Bool := decide (e.Port > 0)

end Mdns

/-!
The package `internal/streams` of go2rtc: the registry of streams.

A shallow embedding of `New`, `Patch` and `GetOrPatch` of `src/internal/streams/streams.go`.

* The package variable `streams`, a `map[string]*Stream`, and the streams the pointers point
  to are the state: a `*Stream` is the index of the stream in the list of allocated streams,
  so that two names that hold the same pointer share one stream.
* The type `Stream` and the functions `NewStream`, `(*Stream).SetSource` and `HasProducer`
  belong to files of the package that are not part of the sources at hand, and `url.Parse`
  to the standard library: they are parameters (`Env`).
* The mutex `streamsMu` and the logger have no part in what the functions return or store.
-/

namespace Streams

/-- The fields of `url.URL` that the code reads. -/
structure URL where
  Scheme : String
  Path : String
  deriving DecidableEq, Repr

/-- The functions the code calls that are defined elsewhere, over streams of type `τ`. -/
structure Env (τ : Type) where
  /-- The constructor `NewStream(source)`. -/
  NewStream : String → τ
  /-- The method `stream.SetSource(source)`, as the new value of the stream. -/
  SetSource : τ → String → τ
  /-- The function `HasProducer(source)`. -/
  HasProducer : String → Bool
  /-- The function `url.Parse(source)`: `none` when it returns an error. -/
  Parse : String → Option URL

/-- The same functions with another `HasProducer`. -/
def Env.withHasProducer {τ : Type} (env : Env τ) (hp : String → Bool) : Env τ :=
  ⟨env.NewStream, env.SetSource, hp, env.Parse⟩

/-- The state of the package: the streams allocated so far and the map `streams`, from names
to pointers. -/
structure State (τ : Type) where
  heap : List τ
  streams : List (String × Nat)
  deriving DecidableEq, Repr

/-- Map read `streams[name]` with the comma-ok form. -/
def mapGet : List (String × Nat) → String → Option Nat
  | [], _ => none
  | (k, v) :: m, name => if k = name then some v else mapGet m name

/-- Map assignment `streams[name] = stream`. -/
def mapSet : List (String × Nat) → String → Nat → List (String × Nat)
  | [], name, stream => [(name, stream)]
  | (k, v) :: m, name, stream =>
    if k = name then (name, stream) :: m else (k, v) :: mapSet m name stream

/-- The class `\s` of Go regular expressions: tab, newline, form feed, carriage return and
space. -/
def isSpace (c : Char) : Bool :=
  c = Char.ofNat 9 || c = Char.ofNat 10 || c = Char.ofNat 12 || c = Char.ofNat 13 || c = ' '

/-- The call `sanitize.MatchString(source)` for the expression `\S` that `sanitize` is
compiled from: whether some character of the source is not in the class `\s`. -/
def sanitizeMatchString (source : String) : Bool :=
  source.data.any (fun c => !isSpace c)

/-- Whether the source contains a whitespace character. -/
def containsSpace (source : String) : Bool := source.data.any isSpace

/-- Go `len(s)` of a string: its number of bytes. -/
def len (s : String) : Nat := (s.data.map Char.utf8Size).sum

/-- The function `func New(name string, source string) *Stream`: the returned pointer, `none`
for nil, and the state afterwards. -/
def New {τ : Type} (env : Env τ) (name source : String) (st : State τ) :
    Option Nat × State τ :=
  if sanitizeMatchString source = true then (none, st)
  else
    (some st.heap.length,
      ⟨st.heap ++ [env.NewStream source], mapSet st.streams name st.heap.length⟩)

/-- The first `if` of `Patch`: the stream the source links to, if it parses as a URL of
scheme `rtsp` whose path, longer than one byte, names a stream after its first byte.  The
path that `url.Parse` returns for a URL with a scheme is empty or starts with `/`, so the
first byte is that character. -/
def Patch.link {τ : Type} (env : Env τ) (source : String) (st : State τ) : Option Nat :=
  match env.Parse source with
  | some u =>
    if u.Scheme = "rtsp" ∧ len u.Path > 1 then mapGet st.streams (Mdns.sliceFrom u.Path 1)
    else none
  | none => none

/-- The call `stream.SetSource(source)` on the stream a pointer points to. -/
def setSource {τ : Type} (env : Env τ) (heap : List τ) (stream : Nat) (source : String) :
    List τ :=
  match heap[stream]? with
  | some v => heap.set stream (env.SetSource v source)
  | none => heap

/-- The function `func Patch(name string, source string) *Stream`. -/
def Patch {τ : Type} (env : Env τ) (name source : String) (st : State τ) :
    Option Nat × State τ :=
  match Patch.link env source st with
  | some stream => (some stream, ⟨st.heap, mapSet st.streams name stream⟩)
  | none =>
    if env.HasProducer source = false then (none, st)
    else
      match mapGet st.streams name with
      | some stream => (some stream, ⟨setSource env st.heap stream source, st.streams⟩)
      | none => New env name source st

/-- The type `url.Values`. -/
abbrev Values := List (String × List String)

/-- The method `func (v Values) Get(key string) string`: the first value of the key, the
empty string when there is none. -/
def Values.Get : Values → String → String
  | [], _ => ""
  | (k, vs) :: rest, key => if k = key then vs.headD "" else Values.Get rest key

/-- The function `func GetOrPatch(query url.Values) *Stream`. -/
def GetOrPatch {τ : Type} (env : Env τ) (query : Values) (st : State τ) :
    Option Nat × State τ :=
  let source := query.Get "src"
  if source = "" then (none, st)
  else
    match mapGet st.streams source with
    | some stream => (some stream, st)
    | none =>
      if query.Get "name" = "" then Patch env (query.Get "name") source st
      else Patch env source source st

/-! ## A concrete registry used to evaluate the definitions -/

/-- A parser that knows three sources. -/
def demoParse (source : String) : Option URL :=
  if source = "rtsp://localhost/cam1" then some ⟨"rtsp", "/cam1"⟩
  else if source = "rtsp://localhost/" then some ⟨"rtsp", "/"⟩
  else if source = "rtsp://192.0.2.5/stream" then some ⟨"rtsp", "/stream"⟩
  else none

/-- Streams that are the list of their sources; every source that parses has a producer. -/
def demoEnv : Env (List String) :=
  ⟨fun source => [source], fun _ source => [source],
    fun source => (demoParse source).isSome, demoParse⟩

/-- A registry with the stream `cam1`. -/
def demoState : State (List String) := ⟨[["rtsp://192.0.2.5/stream"]], [("cam1", 0)]⟩

end Streams

namespace Mdns

/-! ## Facts about the discovery loop -/

section loop
variable {σ : Type} (service : String) (Unpack : List Nat → Option Msg)
  (onentry : σ → ServiceEntry → Bool × σ)

/-- Every callback invocation of the loop comes from a datagram that was read, unpacked, whose
pointer name has the service as suffix and was not in `skipPTR` when the loop started. -/
theorem Discovery.loop_calls (reads : List ReadResult) :
    ∀ (n : Nat) (skipPTR : List String) (s : σ) (c : Call),
      c ∈ (Discovery.loop service Unpack onentry reads n skipPTR s).calls →
      n ≤ c.idx ∧ ∃ b, reads[c.idx - n]? = some (ReadResult.data b) ∧
        Unpack b = some c.msg ∧ c.entry = NewServiceEntry c.msg ∧
        HasSuffix (GetPTR c.msg) service = true ∧ GetPTR c.msg ∉ skipPTR := by
  induction reads with
  | nil => intro n skipPTR s c hc; simp [Discovery.loop] at hc
  | cons r rest ih =>
    intro n skipPTR s c hc
    have shift : ∀ c : Call, n + 1 ≤ c.idx →
        (r :: rest)[c.idx - n]? = rest[c.idx - (n + 1)]? := by
      intro c h
      have : c.idx - n = (c.idx - (n + 1)) + 1 := by omega
      rw [this, List.getElem?_cons_succ]
    have lift : ∀ skip' s', (∀ x, x ∉ skip' → x ∉ skipPTR) →
        c ∈ (Discovery.loop service Unpack onentry rest (n + 1) skip' s').calls →
        n ≤ c.idx ∧ ∃ b, (r :: rest)[c.idx - n]? = some (ReadResult.data b) ∧
          Unpack b = some c.msg ∧ c.entry = NewServiceEntry c.msg ∧
          HasSuffix (GetPTR c.msg) service = true ∧ GetPTR c.msg ∉ skipPTR := by
      intro skip' s' hsk h
      obtain ⟨h1, b, h2, h3, h4, h5, h6⟩ := ih (n + 1) skip' s' c h
      exact ⟨by omega, b, by rw [shift c h1]; exact h2, h3, h4, h5, hsk _ h6⟩
    cases r with
    | fail e => simp [Discovery.loop] at hc
    | data b =>
      unfold Discovery.loop at hc
      split at hc
      · exact lift _ _ (fun _ h => h) hc
      · rename_i msg hmsg
        dsimp only at hc
        split at hc
        · exact lift _ _ (fun _ h => h) hc
        · rename_i hsuf
          split at hc
          · exact lift _ _ (fun _ h => h) hc
          · rename_i hskip
            have here : ∀ st, c = ⟨n, msg, NewServiceEntry msg, st⟩ →
                n ≤ c.idx ∧ ∃ b', (ReadResult.data b :: rest)[c.idx - n]? = some (ReadResult.data b') ∧
                  Unpack b' = some c.msg ∧ c.entry = NewServiceEntry c.msg ∧
                  HasSuffix (GetPTR c.msg) service = true ∧ GetPTR c.msg ∉ skipPTR := by
              intro st hst
              subst hst
              refine ⟨le_refl _, b, by simp, hmsg, rfl, ?_, hskip⟩
              simpa using hsuf
            split at hc
            · simp only [List.mem_singleton] at hc
              exact here _ hc
            · simp only [List.mem_cons] at hc
              rcases hc with hc | hc
              · exact here _ hc
              · exact lift _ _ (fun x hx hx' => hx (List.mem_append_left _ hx')) hc

/-- Unfolding of the loop at a datagram that is skipped: not unpacked, wrong suffix, or a
pointer name already in `skipPTR`. -/
theorem Discovery.loop_skip (b : List Nat) (rest : List ReadResult) (n : Nat)
    (skipPTR : List String) (s : σ)
    (h : ∀ msg, Unpack b = some msg →
      HasSuffix (GetPTR msg) service = false ∨ GetPTR msg ∈ skipPTR) :
    Discovery.loop service Unpack onentry (ReadResult.data b :: rest) n skipPTR s =
      Discovery.loop service Unpack onentry rest (n + 1) skipPTR s := by
  rw [Discovery.loop]
  cases hmsg : Unpack b with
  | none => rfl
  | some msg =>
    dsimp only
    rcases h msg hmsg with h | h
    · rw [if_pos h]
    · by_cases h1 : HasSuffix (GetPTR msg) service = false
      · rw [if_pos h1]
      · rw [if_neg h1, if_pos h]

/-- Unfolding of the loop at a datagram that is offered to the callback. -/
theorem Discovery.loop_offer (b : List Nat) (rest : List ReadResult) (n : Nat)
    (skipPTR : List String) (s : σ) (msg : Msg) (hmsg : Unpack b = some msg)
    (hsuf : HasSuffix (GetPTR msg) service = true) (hskip : GetPTR msg ∉ skipPTR) :
    Discovery.loop service Unpack onentry (ReadResult.data b :: rest) n skipPTR s =
      if (onentry s (NewServiceEntry msg)).1 = true then
        ⟨[⟨n, msg, NewServiceEntry msg, true⟩], n + 1, (onentry s (NewServiceEntry msg)).2⟩
      else
        ⟨⟨n, msg, NewServiceEntry msg, false⟩ ::
            (Discovery.loop service Unpack onentry rest (n + 1) (skipPTR ++ [GetPTR msg])
              (onentry s (NewServiceEntry msg)).2).calls,
          (Discovery.loop service Unpack onentry rest (n + 1) (skipPTR ++ [GetPTR msg])
              (onentry s (NewServiceEntry msg)).2).nreads,
          (Discovery.loop service Unpack onentry rest (n + 1) (skipPTR ++ [GetPTR msg])
              (onentry s (NewServiceEntry msg)).2).state⟩ := by
  rw [Discovery.loop, hmsg]
  simp only [hsuf, hskip, if_false, Bool.true_eq_false]

/-- The three ways the loop treats the datagram at the head of the reads. -/
theorem Discovery.loop_data_cases (b : List Nat) (skipPTR : List String) :
    (∀ msg, Unpack b = some msg →
      HasSuffix (GetPTR msg) service = false ∨ GetPTR msg ∈ skipPTR) ∨
    ∃ msg, Unpack b = some msg ∧ HasSuffix (GetPTR msg) service = true ∧
      GetPTR msg ∉ skipPTR := by
  cases h : Unpack b with
  | none => left; intro msg hm; cases hm
  | some msg =>
    by_cases h1 : HasSuffix (GetPTR msg) service = true
    · by_cases h2 : GetPTR msg ∈ skipPTR
      · left; intro m hm; cases hm; exact Or.inr h2
      · right; exact ⟨msg, rfl, h1, h2⟩
    · left; intro m hm; cases hm; left; simpa using h1

/-- A datagram read before the one of a callback invocation, and unpacked, has another
pointer name than the one of the invocation. -/
theorem Discovery.loop_earlier (reads : List ReadResult) :
    ∀ (n : Nat) (skipPTR : List String) (s : σ) (c : Call),
      c ∈ (Discovery.loop service Unpack onentry reads n skipPTR s).calls →
      ∀ (i : Nat) (b : List Nat) (m : Msg), n ≤ i → i < c.idx →
        reads[i - n]? = some (ReadResult.data b) → Unpack b = some m →
        GetPTR m ≠ GetPTR c.msg := by
  induction reads with
  | nil => intro n skipPTR s c hc; simp [Discovery.loop] at hc
  | cons r rest ih =>
    intro n skipPTR s c hc i b m hni hic hb hm
    cases r with
    | fail e => simp [Discovery.loop] at hc
    | data b0 =>
      have tail : ∀ skip' s',
          c ∈ (Discovery.loop service Unpack onentry rest (n + 1) skip' s').calls →
          n + 1 ≤ i → GetPTR m ≠ GetPTR c.msg := by
        intro skip' s' hc' hi
        refine ih (n + 1) skip' s' c hc' i b m hi hic ?_ hm
        have : i - n = (i - (n + 1)) + 1 := by omega
        rw [this, List.getElem?_cons_succ] at hb
        exact hb
      have head : i = n → b = b0 := by
        intro hi
        subst hi
        simp at hb
        exact hb.symm
      rcases Discovery.loop_data_cases service Unpack b0 skipPTR with hsk | ⟨msg, hmsg, hsuf, hskip⟩
      · rw [Discovery.loop_skip service Unpack onentry b0 rest n skipPTR s hsk] at hc
        by_cases hi : i = n
        · have hb0 := head hi
          subst hb0
          obtain ⟨_, _, _, _, _, h5, h6⟩ :=
            Discovery.loop_calls service Unpack onentry rest (n + 1) skipPTR s c hc
          intro heq
          rcases hsk m hm with h | h
          · rw [heq, h5] at h; cases h
          · rw [heq] at h; exact h6 h
        · exact tail _ _ hc (by omega)
      · rw [Discovery.loop_offer service Unpack onentry b0 rest n skipPTR s msg hmsg hsuf hskip]
          at hc
        split at hc
        · simp only [List.mem_singleton] at hc
          subst hc
          exact absurd hic (by simpa using hni)
        · simp only [List.mem_cons] at hc
          rcases hc with hc | hc
          · subst hc
            exact absurd hic (by simpa using hni)
          · by_cases hi : i = n
            · have hb0 := head hi
              subst hb0
              obtain ⟨_, _, _, _, _, _, h6⟩ :=
                Discovery.loop_calls service Unpack onentry rest (n + 1) _ _ c hc
              rw [hmsg] at hm
              cases hm
              intro heq
              exact h6 (by rw [← heq]; simp)
            · exact tail _ _ hc (by omega)

/-- In the invocations of the loop the reads are in increasing order, the callback returned
false in every invocation that is followed by another one, and their pointer names differ. -/
theorem Discovery.loop_pairwise (reads : List ReadResult) :
    ∀ (n : Nat) (skipPTR : List String) (s : σ),
      (Discovery.loop service Unpack onentry reads n skipPTR s).calls.Pairwise
        (fun a c => a.idx < c.idx ∧ a.stop = false ∧ GetPTR a.msg ≠ GetPTR c.msg) := by
  induction reads with
  | nil => intro n skipPTR s; simp [Discovery.loop]
  | cons r rest ih =>
    intro n skipPTR s
    cases r with
    | fail e => simp [Discovery.loop]
    | data b0 =>
      rcases Discovery.loop_data_cases service Unpack b0 skipPTR with hsk | ⟨msg, hmsg, hsuf, hskip⟩
      · rw [Discovery.loop_skip service Unpack onentry b0 rest n skipPTR s hsk]
        exact ih _ _ _
      · rw [Discovery.loop_offer service Unpack onentry b0 rest n skipPTR s msg hmsg hsuf hskip]
        split
        · simp
        · refine List.Pairwise.cons ?_ (ih _ _ _)
          intro c hc
          obtain ⟨h1, _, _, _, _, _, h6⟩ :=
            Discovery.loop_calls service Unpack onentry rest (n + 1) _ _ c hc
          refine ⟨by simpa using h1, rfl, ?_⟩
          intro heq
          exact h6 (by rw [← heq]; simp)

/-- The read that delivered an accepted entry is the last read of the loop. -/
theorem Discovery.loop_nreads (reads : List ReadResult) :
    ∀ (n : Nat) (skipPTR : List String) (s : σ) (c : Call),
      c ∈ (Discovery.loop service Unpack onentry reads n skipPTR s).calls → c.stop = true →
      (Discovery.loop service Unpack onentry reads n skipPTR s).nreads = c.idx + 1 := by
  induction reads with
  | nil => intro n skipPTR s c hc; simp [Discovery.loop] at hc
  | cons r rest ih =>
    intro n skipPTR s c hc hstop
    cases r with
    | fail e => simp [Discovery.loop] at hc
    | data b0 =>
      rcases Discovery.loop_data_cases service Unpack b0 skipPTR with hsk | ⟨msg, hmsg, hsuf, hskip⟩
      · rw [Discovery.loop_skip service Unpack onentry b0 rest n skipPTR s hsk] at hc ⊢
        exact ih _ _ _ c hc hstop
      · rw [Discovery.loop_offer service Unpack onentry b0 rest n skipPTR s msg hmsg hsuf hskip]
          at hc ⊢
        split at hc
        · rename_i h
          rw [if_pos h]
          simp only [List.mem_singleton] at hc
          subst hc
          rfl
        · rename_i h
          rw [if_neg h]
          simp only [List.mem_cons] at hc
          rcases hc with hc | hc
          · subst hc; cases hstop
          · exact ih _ _ _ c hc hstop

/-- What is read after an accepted entry has no effect on the loop. -/
theorem Discovery.loop_take (reads : List ReadResult) :
    ∀ (n : Nat) (skipPTR : List String) (s : σ) (c : Call),
      c ∈ (Discovery.loop service Unpack onentry reads n skipPTR s).calls → c.stop = true →
      ∀ later : List ReadResult,
        Discovery.loop service Unpack onentry (reads.take (c.idx + 1 - n) ++ later) n skipPTR s
          = Discovery.loop service Unpack onentry reads n skipPTR s := by
  induction reads with
  | nil => intro n skipPTR s c hc; simp [Discovery.loop] at hc
  | cons r rest ih =>
    intro n skipPTR s c hc hstop later
    cases r with
    | fail e => simp [Discovery.loop] at hc
    | data b0 =>
      have hidx := (Discovery.loop_calls service Unpack onentry _ n skipPTR s c hc).1
      have htake : (ReadResult.data b0 :: rest).take (c.idx + 1 - n) ++ later =
          ReadResult.data b0 :: (rest.take (c.idx + 1 - (n + 1)) ++ later) := by
        have : c.idx + 1 - n = (c.idx + 1 - (n + 1)) + 1 := by omega
        rw [this, List.take_succ_cons, List.cons_append]
      rw [htake]
      rcases Discovery.loop_data_cases service Unpack b0 skipPTR with hsk | ⟨msg, hmsg, hsuf, hskip⟩
      · rw [Discovery.loop_skip service Unpack onentry b0 _ n skipPTR s hsk,
          Discovery.loop_skip service Unpack onentry b0 _ n skipPTR s hsk] at *
        exact ih _ _ _ c hc hstop later
      · rw [Discovery.loop_offer service Unpack onentry b0 _ n skipPTR s msg hmsg hsuf hskip,
          Discovery.loop_offer service Unpack onentry b0 _ n skipPTR s msg hmsg hsuf hskip] at *
        split at hc
        · rename_i h
          rw [if_pos h, if_pos h]
        · rename_i h
          rw [if_neg h, if_neg h]
          simp only [List.mem_cons] at hc
          rcases hc with hc | hc
          · subst hc; cases hstop
          · rw [ih _ _ _ c hc hstop later]

/-- A read that fails ends the loop the way the end of the reads does. -/
theorem Discovery.loop_fail (pre : List ReadResult) (e : Err) (post : List ReadResult) :
    ∀ (n : Nat) (skipPTR : List String) (s : σ),
      Discovery.loop service Unpack onentry (pre ++ ReadResult.fail e :: post) n skipPTR s
        = Discovery.loop service Unpack onentry pre n skipPTR s := by
  induction pre with
  | nil => intro n skipPTR s; simp [Discovery.loop]
  | cons r rest ih =>
    intro n skipPTR s
    cases r with
    | fail e0 => simp [Discovery.loop]
    | data b0 =>
      rw [List.cons_append]
      rcases Discovery.loop_data_cases service Unpack b0 skipPTR with hsk | ⟨msg, hmsg, hsuf, hskip⟩
      · rw [Discovery.loop_skip service Unpack onentry b0 _ n skipPTR s hsk,
          Discovery.loop_skip service Unpack onentry b0 _ n skipPTR s hsk]
        exact ih _ _ _
      · rw [Discovery.loop_offer service Unpack onentry b0 _ n skipPTR s msg hmsg hsuf hskip,
          Discovery.loop_offer service Unpack onentry b0 _ n skipPTR s msg hmsg hsuf hskip, ih]

/-- Datagrams that fail to unpack, wherever they are inserted, change neither what the
callback sees nor its final state. -/
theorem Discovery.loop_inserted {xs ys : List ReadResult}
    (h : InsertedMalformed Unpack xs ys) :
    ∀ (n n' : Nat) (skipPTR : List String) (s : σ),
      (Discovery.loop service Unpack onentry ys n' skipPTR s).calls.map Call.seen =
        (Discovery.loop service Unpack onentry xs n skipPTR s).calls.map Call.seen ∧
      (Discovery.loop service Unpack onentry ys n' skipPTR s).state =
        (Discovery.loop service Unpack onentry xs n skipPTR s).state := by
  induction h with
  | nil => intro n n' skipPTR s; simp [Discovery.loop]
  | keep r _ ih =>
    intro n n' skipPTR s
    cases r with
    | fail e0 => simp [Discovery.loop]
    | data b0 =>
      rcases Discovery.loop_data_cases service Unpack b0 skipPTR with hsk | ⟨msg, hmsg, hsuf, hskip⟩
      · rw [Discovery.loop_skip service Unpack onentry b0 _ n skipPTR s hsk,
          Discovery.loop_skip service Unpack onentry b0 _ n' skipPTR s hsk]
        exact ih _ _ _ _
      · rw [Discovery.loop_offer service Unpack onentry b0 _ n skipPTR s msg hmsg hsuf hskip,
          Discovery.loop_offer service Unpack onentry b0 _ n' skipPTR s msg hmsg hsuf hskip]
        by_cases hst : (onentry s (NewServiceEntry msg)).1 = true
        · rw [if_pos hst, if_pos hst]
          simp [Call.seen]
        · rw [if_neg hst, if_neg hst]
          obtain ⟨h1, h2⟩ := ih (n + 1) (n' + 1) (skipPTR ++ [GetPTR msg])
            (onentry s (NewServiceEntry msg)).2
          refine ⟨?_, h2⟩
          simp only [List.map_cons, h1]
          simp [Call.seen]
  | insert b hb _ ih =>
    intro n n' skipPTR s
    rw [Discovery.loop_skip service Unpack onentry b _ n' skipPTR s
      (fun msg hm => by rw [hb] at hm; cases hm)]
    exact ih _ _ _ _

end loop

/-! ## The discovery session -/

section session
variable {σ : Type} (net : Net) (service : String) (onentry : σ → ServiceEntry → Bool × σ)
  (s : σ)

/-- After a successful setup `Discovery` is its loop followed by `return nil`. -/
theorem Discovery_of_setupOk (h : net.setupOk service) :
    Discovery net service onentry s =
      ⟨none, (Discovery.loop service net.Unpack onentry net.reads 0 [] s).calls,
        (Discovery.loop service net.Unpack onentry net.reads 0 [] s).nreads,
        (Discovery.loop service net.Unpack onentry net.reads 0 [] s).state⟩ := by
  obtain ⟨h1, h2, h3⟩ := h
  simp only [Discovery, h1, h2, h3]

/-- The callback is invoked only after a successful setup. -/
theorem Discovery_setupOk_of_mem (c : Call)
    (hc : c ∈ (Discovery net service onentry s).calls) : net.setupOk service := by
  unfold Discovery at hc
  unfold Net.setupOk
  cases h1 : net.ListenMulticastUDP with
  | some e => rw [h1] at hc; simp at hc
  | none =>
    cases h2 : net.SetDeadline with
    | some e => rw [h1, h2] at hc; simp at hc
    | none =>
      cases h3 : net.Pack service with
      | some e => rw [h1, h2, h3] at hc; simp at hc
      | none => exact ⟨rfl, rfl, rfl⟩

/-- The invocations of `Discovery` are those of its loop. -/
theorem Discovery_mem_loop (c : Call)
    (hc : c ∈ (Discovery net service onentry s).calls) :
    c ∈ (Discovery.loop service net.Unpack onentry net.reads 0 [] s).calls := by
  have h := Discovery_setupOk_of_mem net service onentry s c hc
  rw [Discovery_of_setupOk net service onentry s h] at hc
  exact hc

/-- The invocations of `Discovery`, read by read. -/
theorem Discovery_calls_pairwise :
    (Discovery net service onentry s).calls.Pairwise
      (fun a c => a.idx < c.idx ∧ a.stop = false ∧ GetPTR a.msg ≠ GetPTR c.msg) := by
  by_cases h : net.setupOk service
  · rw [Discovery_of_setupOk net service onentry s h]
    exact Discovery.loop_pairwise service net.Unpack onentry net.reads 0 [] s
  · have : (Discovery net service onentry s).calls = [] := by
      cases hl : (Discovery net service onentry s).calls with
      | nil => rfl
      | cons c l =>
        exact absurd (Discovery_setupOk_of_mem net service onentry s c (by rw [hl]; simp)) h
    rw [this]
    exact List.Pairwise.nil

end session

/-! ## Claims on the discovery session -/

/-- C1, pointer-suffix filtering: every entry passed to the callback is `NewServiceEntry` of
the message unpacked from a datagram that was read and whose pointer name has the service
name as suffix; a datagram whose pointer name does not end with the service name never
leads to an invocation of the callback. -/
theorem C1_pointer_suffix_filtering {σ : Type} (net : Net) (service : String)
    (onentry : σ → ServiceEntry → Bool × σ) (s : σ) :
    (∀ c ∈ (Discovery net service onentry s).calls,
      ∃ b, net.reads[c.idx]? = some (ReadResult.data b) ∧ net.Unpack b = some c.msg ∧
        c.entry = NewServiceEntry c.msg ∧ HasSuffix (GetPTR c.msg) service = true) ∧
    (∀ (i : Nat) (b : List Nat) (msg : Msg), net.reads[i]? = some (ReadResult.data b) →
      net.Unpack b = some msg → HasSuffix (GetPTR msg) service = false →
      ∀ c ∈ (Discovery net service onentry s).calls, c.idx ≠ i) := by
  have key : ∀ c ∈ (Discovery net service onentry s).calls,
      ∃ b, net.reads[c.idx]? = some (ReadResult.data b) ∧ net.Unpack b = some c.msg ∧
        c.entry = NewServiceEntry c.msg ∧ HasSuffix (GetPTR c.msg) service = true := by
    intro c hc
    obtain ⟨_, b, h2, h3, h4, h5, _⟩ := Discovery.loop_calls service net.Unpack onentry
      net.reads 0 [] s c (Discovery_mem_loop net service onentry s c hc)
    exact ⟨b, by simpa using h2, h3, h4, h5⟩
  refine ⟨key, ?_⟩
  intro i b msg hb hm hsuf c hc hi
  obtain ⟨b', h2, h3, _, h5⟩ := key c hc
  rw [hi, hb] at h2
  cases h2
  rw [hm] at h3
  cases h3
  rw [hsuf] at h5
  cases h5

/-- C1 at a session that reads an answer for another service and then an answer of an
accessory: only the second reaches the callback. -/
theorem C1_pointer_suffix_filtering_witness :
    (demoNet [ReadResult.data [4], ReadResult.data [1]]).reads[0]? = some (ReadResult.data [4]) ∧
    demoUnpack [4] = some demoTv ∧
    HasSuffix (GetPTR demoTv) ServiceHAP = false ∧
    (Discovery (demoNet [ReadResult.data [4], ReadResult.data [1]]) ServiceHAP
      neverAccept 0).calls = [⟨1, demoCam, NewServiceEntry demoCam, false⟩] ∧
    (⟨1, demoCam, NewServiceEntry demoCam, false⟩ : Call).idx ≠ 0 :=
  ⟨by decide, by decide, by decide, by decide,
    (C1_pointer_suffix_filtering (demoNet [ReadResult.data [4], ReadResult.data [1]])
      ServiceHAP neverAccept 0).2 0 [4] demoTv (by decide) (by decide) (by decide)
      ⟨1, demoCam, NewServiceEntry demoCam, false⟩ (by decide)⟩

/-- C2, deduplication: of two datagrams of one call whose messages have the same pointer
name, whatever their other records, the later one never leads to an invocation of the
callback; the pointer names of the invocations of one call are pairwise distinct. -/
theorem C2_deduplication {σ : Type} (net : Net) (service : String)
    (onentry : σ → ServiceEntry → Bool × σ) (s : σ) :
    (∀ (i j : Nat) (bi bj : List Nat) (mi mj : Msg), i < j →
      net.reads[i]? = some (ReadResult.data bi) → net.Unpack bi = some mi →
      net.reads[j]? = some (ReadResult.data bj) → net.Unpack bj = some mj →
      GetPTR mi = GetPTR mj →
      ∀ c ∈ (Discovery net service onentry s).calls, c.idx ≠ j) ∧
    ((Discovery net service onentry s).calls.map (fun c => GetPTR c.msg)).Nodup := by
  constructor
  · intro i j bi bj mi mj hij hbi hmi hbj hmj hptr c hc hcj
    have hl := Discovery_mem_loop net service onentry s c hc
    obtain ⟨_, b, h2, h3, _⟩ := Discovery.loop_calls service net.Unpack onentry
      net.reads 0 [] s c hl
    rw [Nat.sub_zero, hcj, hbj] at h2
    cases h2
    rw [hmj] at h3
    cases h3
    exact Discovery.loop_earlier service net.Unpack onentry net.reads 0 [] s c hl i bi mi
      (Nat.zero_le _) (by omega) (by simpa using hbi) hmi hptr
  · rw [List.Nodup, List.pairwise_map]
    exact (Discovery_calls_pairwise net service onentry s).imp (fun h => h.2.2)

/-- C2 at a session that reads two different answers of the same accessory: the callback is
invoked for the first one only. -/
theorem C2_deduplication_witness :
    GetPTR demoCam = GetPTR demoCamAgain ∧ demoCam ≠ demoCamAgain ∧
    (Discovery (demoNet [ReadResult.data [1], ReadResult.data [2]]) ServiceHAP
      neverAccept 0).calls = [⟨0, demoCam, NewServiceEntry demoCam, false⟩] ∧
    (⟨0, demoCam, NewServiceEntry demoCam, false⟩ : Call).idx ≠ 1 :=
  ⟨by decide, by decide, by decide,
    (C2_deduplication (demoNet [ReadResult.data [1], ReadResult.data [2]])
      ServiceHAP neverAccept 0).1 0 1 [1] [2] demoCam demoCamAgain (by decide) (by decide)
      (by decide) (by decide) (by decide) (by decide)
      ⟨0, demoCam, NewServiceEntry demoCam, false⟩ (by decide)⟩

/-- C3, termination by acceptance: when the callback returns true for an entry, `Discovery`
returns nil, that invocation is the last one, no later read delivered an entry to the
callback, the read that delivered the accepted datagram is the last read made, and whatever
would have been read afterwards has no effect on what `Discovery` does. -/
theorem C3_termination_by_acceptance {σ : Type} (net : Net) (service : String)
    (onentry : σ → ServiceEntry → Bool × σ) (s : σ) (c : Call)
    (hc : c ∈ (Discovery net service onentry s).calls) (hstop : c.stop = true) :
    (Discovery net service onentry s).err = none ∧
    (Discovery net service onentry s).calls.getLast? = some c ∧
    (∀ c' ∈ (Discovery net service onentry s).calls, c'.idx ≤ c.idx) ∧
    (Discovery net service onentry s).nreads = c.idx + 1 ∧
    ∀ later : List ReadResult,
      Discovery (net.withReads (net.reads.take (c.idx + 1) ++ later)) service onentry s =
        Discovery net service onentry s := by
  have hok := Discovery_setupOk_of_mem net service onentry s c hc
  have hl := Discovery_mem_loop net service onentry s c hc
  have hpw := Discovery_calls_pairwise net service onentry s
  obtain ⟨pre, post, hsplit⟩ := List.append_of_mem hc
  rw [hsplit] at hpw
  have hpost : post = [] := by
    cases post with
    | nil => rfl
    | cons d post' =>
      have := (List.pairwise_append.1 hpw).2.1
      have h := (List.pairwise_cons.1 this).1 d (List.mem_cons_self _ _)
      rw [hstop] at h
      exact absurd h.2.1 (by simp)
  subst hpost
  refine ⟨?_, ?_, ?_, ?_, ?_⟩
  · rw [Discovery_of_setupOk net service onentry s hok]
  · rw [hsplit]; simp
  · intro c' hc'
    rw [hsplit] at hc'
    rcases List.mem_append.1 hc' with h | h
    · exact Nat.le_of_lt ((List.pairwise_append.1 hpw).2.2 c' h c (List.mem_singleton_self _)).1
    · rw [List.mem_singleton.1 h]
  · rw [Discovery_of_setupOk net service onentry s hok]
    exact Discovery.loop_nreads service net.Unpack onentry net.reads 0 [] s c hl hstop
  · intro later
    have hok' : (net.withReads (net.reads.take (c.idx + 1) ++ later)).setupOk service := hok
    rw [Discovery_of_setupOk net service onentry s hok,
      Discovery_of_setupOk _ service onentry s hok']
    have := Discovery.loop_take service net.Unpack onentry net.reads 0 [] s c hl hstop later
    rw [Nat.sub_zero] at this
    simp only [Net.withReads]
    rw [this]

/-- C3 at a session in which the second datagram is accepted: two reads are made and the
third datagram, a new accessory, is never offered. -/
theorem C3_termination_by_acceptance_witness :
    (Discovery (demoNet [ReadResult.data [2], ReadResult.data [3], ReadResult.data [1]])
      ServiceHAP acceptPort 0).calls =
        [⟨0, demoCamAgain, NewServiceEntry demoCamAgain, false⟩,
         ⟨1, demoDoor, NewServiceEntry demoDoor, true⟩] ∧
    (Discovery (demoNet [ReadResult.data [2], ReadResult.data [3], ReadResult.data [1]])
      ServiceHAP acceptPort 0).err = none ∧
    (Discovery (demoNet [ReadResult.data [2], ReadResult.data [3], ReadResult.data [1]])
      ServiceHAP acceptPort 0).nreads = (⟨1, demoDoor, NewServiceEntry demoDoor, true⟩ : Call).idx + 1 :=
  ⟨by decide,
    (C3_termination_by_acceptance
      (demoNet [ReadResult.data [2], ReadResult.data [3], ReadResult.data [1]])
      ServiceHAP acceptPort 0 ⟨1, demoDoor, NewServiceEntry demoDoor, true⟩
      (by decide) rfl).1,
    (C3_termination_by_acceptance
      (demoNet [ReadResult.data [2], ReadResult.data [3], ReadResult.data [1]])
      ServiceHAP acceptPort 0 ⟨1, demoDoor, NewServiceEntry demoDoor, true⟩
      (by decide) rfl).2.2.2.1⟩

/-- C4 fails as stated: the first read fails with an error that is not the expiry of the
deadline, after a successful setup, and `Discovery` returns nil, not that error. -/
theorem C4_read_error_propagation_counterexample :
    (demoNet [ReadResult.fail (Err.other "use of closed network connection")]).setupOk
      ServiceHAP ∧
    Err.other "use of closed network connection" ≠ Err.deadlineExceeded ∧
    (Discovery (demoNet [ReadResult.fail (Err.other "use of closed network connection")])
      ServiceHAP neverAccept 0).err = none ∧
    (Discovery (demoNet [ReadResult.fail (Err.other "use of closed network connection")])
      ServiceHAP neverAccept 0).err ≠ some (Err.other "use of closed network connection") :=
  ⟨⟨rfl, rfl, rfl⟩, by decide, by decide, by decide⟩

/-- C4 as amended: after a successful setup, a read that fails, with the expiry of the
deadline or with any other error, ends the loop and `Discovery` returns nil; the call does
what it does when the deadline expires at that read. -/
theorem C4_read_error_returns_nil {σ : Type} (net : Net) (service : String)
    (onentry : σ → ServiceEntry → Bool × σ) (s : σ)
    (pre post : List ReadResult) (e : Err)
    (hok : net.setupOk service) (hreads : net.reads = pre ++ ReadResult.fail e :: post) :
    (Discovery net service onentry s).err = none ∧
    Discovery net service onentry s = Discovery (net.withReads pre) service onentry s := by
  have hok' : (net.withReads pre).setupOk service := hok
  rw [Discovery_of_setupOk net service onentry s hok,
    Discovery_of_setupOk _ service onentry s hok']
  refine ⟨rfl, ?_⟩
  simp only [Net.withReads]
  rw [hreads, Discovery.loop_fail]

/-- C4 as amended, at a session whose second read fails with an error that is not the
expiry of the deadline. -/
theorem C4_read_error_returns_nil_witness :
    (demoNet [ReadResult.data [1],
      ReadResult.fail (Err.other "use of closed network connection"),
      ReadResult.data [3]]).setupOk ServiceHAP ∧
    (Discovery (demoNet [ReadResult.data [1],
      ReadResult.fail (Err.other "use of closed network connection"),
      ReadResult.data [3]]) ServiceHAP neverAccept 0).err = none :=
  ⟨⟨rfl, rfl, rfl⟩,
    (C4_read_error_returns_nil (demoNet [ReadResult.data [1],
      ReadResult.fail (Err.other "use of closed network connection"),
      ReadResult.data [3]]) ServiceHAP neverAccept 0 [ReadResult.data [1]]
      [ReadResult.data [3]] (Err.other "use of closed network connection")
      ⟨rfl, rfl, rfl⟩ rfl).1⟩

/-- C5, malformed datagram resilience: datagrams that fail to unpack, inserted at any
positions of the reads, lead to no invocation of the callback, and the entries the callback
is invoked with, the values it returns, its final state and the result of `Discovery` are
those of the call without them. -/
theorem C5_malformed_datagram_resilience {σ : Type} (net : Net) (service : String)
    (onentry : σ → ServiceEntry → Bool × σ) (s : σ) (reads' : List ReadResult)
    (h : InsertedMalformed net.Unpack net.reads reads') :
    (Discovery (net.withReads reads') service onentry s).err =
      (Discovery net service onentry s).err ∧
    (Discovery (net.withReads reads') service onentry s).calls.map Call.seen =
      (Discovery net service onentry s).calls.map Call.seen ∧
    (Discovery (net.withReads reads') service onentry s).state =
      (Discovery net service onentry s).state ∧
    ∀ c ∈ (Discovery (net.withReads reads') service onentry s).calls,
      ∃ b, reads'[c.idx]? = some (ReadResult.data b) ∧ net.Unpack b = some c.msg := by
  refine ⟨?_, ?_, ?_, ?_⟩
  · simp only [Discovery, Net.withReads]
    cases net.ListenMulticastUDP <;> cases net.SetDeadline <;> cases net.Pack service <;> rfl
  · have := (Discovery.loop_inserted service net.Unpack onentry h 0 0 [] s).1
    simp only [Discovery, Net.withReads]
    cases net.ListenMulticastUDP <;> cases net.SetDeadline <;> cases net.Pack service <;>
      first | rfl | exact this
  · have := (Discovery.loop_inserted service net.Unpack onentry h 0 0 [] s).2
    simp only [Discovery, Net.withReads]
    cases net.ListenMulticastUDP <;> cases net.SetDeadline <;> cases net.Pack service <;>
      first | rfl | exact this
  · intro c hc
    obtain ⟨_, b, h2, h3, _⟩ := Discovery.loop_calls service net.Unpack onentry
      reads' 0 [] s c (Discovery_mem_loop (net.withReads reads') service onentry s c hc)
    exact ⟨b, by simpa using h2, h3⟩

/-- C5 at a session with two accessories, with a datagram that fails to unpack inserted
before, between and after their answers. -/
theorem C5_malformed_datagram_resilience_witness :
    demoUnpack [0] = none ∧
    (Discovery (demoNet [ReadResult.data [0], ReadResult.data [1], ReadResult.data [0],
      ReadResult.data [3], ReadResult.data [0]]) ServiceHAP neverAccept 0).calls.map Call.idx
        = [1, 3] ∧
    (Discovery (demoNet [ReadResult.data [1], ReadResult.data [3]]) ServiceHAP
      neverAccept 0).calls.map Call.idx = [0, 1] ∧
    (Discovery ((demoNet [ReadResult.data [1], ReadResult.data [3]]).withReads
      [ReadResult.data [0], ReadResult.data [1], ReadResult.data [0],
        ReadResult.data [3], ReadResult.data [0]]) ServiceHAP neverAccept 0).calls.map Call.seen
      = (Discovery (demoNet [ReadResult.data [1], ReadResult.data [3]]) ServiceHAP
          neverAccept 0).calls.map Call.seen :=
  ⟨by decide, by decide, by decide,
    (C5_malformed_datagram_resilience (demoNet [ReadResult.data [1], ReadResult.data [3]])
      ServiceHAP neverAccept 0
      [ReadResult.data [0], ReadResult.data [1], ReadResult.data [0],
        ReadResult.data [3], ReadResult.data [0]]
      (InsertedMalformed.insert [0] rfl (InsertedMalformed.keep _
        (InsertedMalformed.insert [0] rfl (InsertedMalformed.keep _
          (InsertedMalformed.insert [0] rfl InsertedMalformed.nil)))))).2.1⟩

/-! ## Facts about package `strings` -/

/-- The function `strings.HasSuffix` tells whether `s` ends with `suffix`. -/
theorem HasSuffix_iff (s suffix : String) :
    HasSuffix s suffix = true ↔ suffix.data <:+ s.data := by
  simp only [HasSuffix, Bool.and_eq_true, decide_eq_true_eq]
  constructor
  · rintro ⟨_, h⟩
    rw [← h]
    exact List.drop_suffix _ _
  · rintro ⟨t, ht⟩
    rw [← ht]
    refine ⟨by simp, ?_⟩
    exact List.drop_left' (by simp)

/-- The search of a single character finds its first occurrence. -/
theorem indexFrom_single_of_split (c : Char) (pre post : List Char) (h : c ∉ pre) :
    ∀ i : Nat, indexFrom [c] (pre ++ c :: post) i = ((i + pre.length : Nat) : Int) := by
  induction pre with
  | nil => intro i; simp [indexFrom, List.isPrefixOf]
  | cons x xs ih =>
    intro i
    have hx : c ≠ x := fun e => h (by rw [e]; exact List.mem_cons_self _ _)
    have hxs : c ∉ xs := fun e => h (List.mem_cons_of_mem _ e)
    have : indexFrom [c] (x :: xs ++ c :: post) i = indexFrom [c] (xs ++ c :: post) (i + 1) := by
      simp [indexFrom, List.isPrefixOf, hx]
    rw [this, ih hxs (i + 1)]
    congr 1
    simp only [List.length_cons]
    omega

/-- The search of a single character that does not occur gives `-1`. -/
theorem indexFrom_single_of_not_mem (c : Char) (l : List Char) (h : c ∉ l) :
    ∀ i : Nat, indexFrom [c] l i = -1 := by
  induction l with
  | nil => intro i; simp [indexFrom]
  | cons x xs ih =>
    intro i
    have hx : c ≠ x := fun e => h (by rw [e]; exact List.mem_cons_self _ _)
    have hxs : c ∉ xs := fun e => h (List.mem_cons_of_mem _ e)
    have : indexFrom [c] (x :: xs) i = indexFrom [c] xs (i + 1) := by
      simp [indexFrom, List.isPrefixOf, hx]
    rw [this, ih hxs (i + 1)]

/-- The function `strings.Cut` at a string with the separator `=`. -/
theorem Cut_of_split (s : String) (k v : List Char) (hs : s.data = k ++ '=' :: v)
    (hk : '=' ∉ k) : Cut s "=" = (⟨k⟩, ⟨v⟩, true) := by
  have hi : Index s "=" = ((k.length : Nat) : Int) := by
    have := indexFrom_single_of_split '=' k v hk 0
    rw [Nat.zero_add] at this
    rw [← this, ← hs]
    rfl
  have h1 : sliceTo s k.length = ⟨k⟩ := by
    simp only [sliceTo, hs, List.take_left]
  have h2 : sliceFrom s (k.length + ("=" : String).data.length) = ⟨v⟩ := by
    have : k ++ '=' :: v = (k ++ ['=']) ++ v := by simp
    simp only [sliceFrom, hs]
    rw [this]
    congr 1
    exact List.drop_left' (by simp)
  simp only [Cut, hi, Int.toNat_ofNat, h1, h2]
  simp

/-- The function `strings.Cut` at a string without the separator `=`. -/
theorem Cut_of_not_mem (s : String) (hs : '=' ∉ s.data) : Cut s "=" = (s, "", false) := by
  have hi : Index s "=" = -1 := indexFrom_single_of_not_mem '=' s.data hs 0
  simp [Cut, hi]

/-- The function `strings.Cut` with separator `=` splits an entry into its key and value. -/
theorem Cut_eq_entry (s : String) :
    (Cut s "=").1 = entryKey s ∧ (Cut s "=").2.1 = entryValue s := by
  have happ := List.takeWhile_append_dropWhile (fun c => c != '=') s.data
  have hk : '=' ∉ s.data.takeWhile (fun c => c != '=') := by
    intro h
    have := List.mem_takeWhile_imp h
    simp at this
  cases hd : s.data.dropWhile (fun c => c != '=') with
  | nil =>
    rw [hd, List.append_nil] at happ
    have hs : '=' ∉ s.data := by rw [← happ]; exact hk
    rw [Cut_of_not_mem s hs]
    simp only [entryKey, entryValue, hd, happ, List.drop_nil]
    exact ⟨trivial, trivial⟩
  | cons x v =>
    have hx : x = '=' := by
      have := List.head_dropWhile_not (fun c => c != '=') s.data (by rw [hd]; simp)
      simp only [hd, List.head_cons] at this
      simpa using this
    subst hx
    rw [hd] at happ
    rw [Cut_of_split s _ v happ.symm hk]
    simp only [entryKey, entryValue, hd, List.drop_succ_cons, List.drop_zero]
    exact ⟨trivial, trivial⟩

/-! ## Facts about maps -/

/-- Reading the key just assigned. -/
theorem GoMap.get_set_same (m : GoMap) (k v : String) : (m.set k v).get k = some v := by
  induction m with
  | nil => simp [GoMap.set, GoMap.get]
  | cons p m ih =>
    obtain ⟨k', v'⟩ := p
    by_cases h : k' = k
    · simp [GoMap.set, GoMap.get, h]
    · simp [GoMap.set, GoMap.get, h, ih]

/-- Reading another key than the one just assigned. -/
theorem GoMap.get_set_other (m : GoMap) (k v k0 : String) (hk : k0 ≠ k) :
    (m.set k v).get k0 = m.get k0 := by
  induction m with
  | nil => simp [GoMap.set, GoMap.get, Ne.symm hk]
  | cons p m ih =>
    obtain ⟨k', v'⟩ := p
    by_cases h : k' = k
    · subst h
      simp [GoMap.set, GoMap.get, Ne.symm hk]
    · by_cases h0 : k' = k0
      · subst h0
        simp [GoMap.set, GoMap.get, h]
      · simp [GoMap.set, GoMap.get, h, h0, ih]

/-- The keys after an assignment. -/
theorem GoMap.mem_keys_set (m : GoMap) (k v k0 : String) :
    k0 ∈ (m.set k v).keys ↔ k0 = k ∨ k0 ∈ m.keys := by
  induction m with
  | nil => simp [GoMap.set, GoMap.keys]
  | cons p m ih =>
    obtain ⟨k', v'⟩ := p
    by_cases h : k' = k
    · subst h
      simp [GoMap.set, GoMap.keys]
    · simp only [GoMap.keys] at ih
      simp only [GoMap.set, GoMap.keys, h, if_false, List.map_cons, List.mem_cons, ih]
      tauto

/-- A key is absent exactly when reading it finds nothing. -/
theorem GoMap.get_eq_none_iff (m : GoMap) (k : String) : m.get k = none ↔ k ∉ m.keys := by
  induction m with
  | nil => simp [GoMap.get, GoMap.keys]
  | cons p m ih =>
    obtain ⟨k', v'⟩ := p
    simp only [GoMap.keys] at ih
    by_cases h : k' = k
    · simp [GoMap.get, GoMap.keys, h]
    · simp [GoMap.get, GoMap.keys, h, ih, Ne.symm h]

/-- An assignment keeps the keys unique. -/
theorem GoMap.nodup_keys_set (m : GoMap) (k v : String) (h : m.keys.Nodup) :
    (m.set k v).keys.Nodup := by
  induction m with
  | nil => simp [GoMap.set, GoMap.keys]
  | cons p m ih =>
    obtain ⟨k', v'⟩ := p
    simp only [GoMap.keys, List.map_cons, List.nodup_cons] at h
    by_cases hk : k' = k
    · subst hk
      simp only [GoMap.set, if_true, GoMap.keys, List.map_cons, List.nodup_cons]
      exact h
    · have hmem := GoMap.mem_keys_set m k v k'
      simp only [GoMap.keys] at hmem ih
      simp only [GoMap.set, hk, if_false, GoMap.keys, List.map_cons, List.nodup_cons]
      refine ⟨?_, ih h.2⟩
      rw [hmem]
      rintro (h1 | h1)
      · exact hk h1
      · exact h.1 h1

/-- The keys after the inner loop of the `*dns.TXT` case. -/
theorem txtInfo.mem_keys_go (L : List String) :
    ∀ (m : GoMap) (k : String),
      k ∈ (txtInfo.go m L).keys ↔ k ∈ m.keys ∨ ∃ e ∈ L, (Cut e "=").1 = k := by
  induction L with
  | nil => intro m k; simp [txtInfo.go]
  | cons e L ih =>
    intro m k
    rw [txtInfo.go, ih, GoMap.mem_keys_set]
    simp only [List.mem_cons, exists_eq_or_imp]
    constructor
    · rintro ((h | h) | h)
      · exact Or.inr (Or.inl h.symm)
      · exact Or.inl h
      · exact Or.inr (Or.inr h)
    · rintro (h | h | h)
      · exact Or.inl (Or.inr h)
      · exact Or.inl (Or.inl h.symm)
      · exact Or.inr h

/-- The inner loop of the `*dns.TXT` case keeps the keys unique. -/
theorem txtInfo.nodup_keys_go (L : List String) :
    ∀ m : GoMap, m.keys.Nodup → (txtInfo.go m L).keys.Nodup := by
  induction L with
  | nil => intro m h; exact h
  | cons e L ih => intro m h; exact ih _ (GoMap.nodup_keys_set m _ _ h)

/-- The inner loop of the `*dns.TXT` case leaves alone the keys of no entry. -/
theorem txtInfo.get_go_of_not_key (L : List String) :
    ∀ (m : GoMap) (k : String), (∀ e ∈ L, (Cut e "=").1 ≠ k) →
      (txtInfo.go m L).get k = m.get k := by
  induction L with
  | nil => intro m k _; rfl
  | cons e L ih =>
    intro m k h
    rw [txtInfo.go, ih _ k (fun e' he' => h e' (List.mem_cons_of_mem _ he')),
      GoMap.get_set_other _ _ _ _ (Ne.symm (h e (List.mem_cons_self _ _)))]

/-- After the inner loop of the `*dns.TXT` case a key has the value of its last entry. -/
theorem txtInfo.get_go_last (pre : List String) (e : String) (post : List String)
    (h : ∀ e' ∈ post, (Cut e' "=").1 ≠ (Cut e "=").1) :
    ∀ m : GoMap, (txtInfo.go m (pre ++ e :: post)).get (Cut e "=").1 = some (Cut e "=").2.1 := by
  induction pre with
  | nil =>
    intro m
    rw [List.nil_append, txtInfo.go, txtInfo.get_go_of_not_key post _ _ h,
      GoMap.get_set_same]
  | cons x pre ih => intro m; rw [List.cons_append, txtInfo.go]; exact ih _

/-! ## Facts about the record mapper -/

/-- Records that are no A record leave the address alone. -/
theorem NewServiceEntry.foldl_IP (rs : List RR) :
    ∀ e : ServiceEntry, (∀ r ∈ rs, r.isA = false) →
      (rs.foldl NewServiceEntry.step e).IP = e.IP := by
  induction rs with
  | nil => intro e _; rfl
  | cons r rs ih =>
    intro e h
    rw [List.foldl_cons, ih _ (fun r' hr' => h r' (List.mem_cons_of_mem _ hr'))]
    have hr := h r (List.mem_cons_self _ _)
    cases r <;> simp [NewServiceEntry.step, RR.isA] at hr ⊢
    split <;> rfl

/-- Records that are no SRV record leave the port alone. -/
theorem NewServiceEntry.foldl_Port (rs : List RR) :
    ∀ e : ServiceEntry, (∀ r ∈ rs, r.isSRV = false) →
      (rs.foldl NewServiceEntry.step e).Port = e.Port := by
  induction rs with
  | nil => intro e _; rfl
  | cons r rs ih =>
    intro e h
    rw [List.foldl_cons, ih _ (fun r' hr' => h r' (List.mem_cons_of_mem _ hr'))]
    have hr := h r (List.mem_cons_self _ _)
    cases r <;> simp [NewServiceEntry.step, RR.isSRV] at hr ⊢
    split <;> rfl

/-- Records that are no TXT record leave the attributes alone. -/
theorem NewServiceEntry.foldl_Info (rs : List RR) :
    ∀ e : ServiceEntry, (∀ r ∈ rs, r.isTXT = false) →
      (rs.foldl NewServiceEntry.step e).Info = e.Info := by
  induction rs with
  | nil => intro e _; rfl
  | cons r rs ih =>
    intro e h
    rw [List.foldl_cons, ih _ (fun r' hr' => h r' (List.mem_cons_of_mem _ hr'))]
    have hr := h r (List.mem_cons_self _ _)
    cases r <;> simp [NewServiceEntry.step, RR.isTXT] at hr ⊢
    split <;> rfl

/-- Records that are no PTR record leave the name alone. -/
theorem NewServiceEntry.foldl_Name (rs : List RR) :
    ∀ e : ServiceEntry, (∀ r ∈ rs, r.isPTR = false) →
      (rs.foldl NewServiceEntry.step e).Name = e.Name := by
  induction rs with
  | nil => intro e _; rfl
  | cons r rs ih =>
    intro e h
    rw [List.foldl_cons, ih _ (fun r' hr' => h r' (List.mem_cons_of_mem _ hr'))]
    have hr := h r (List.mem_cons_self _ _)
    cases r <;> simp [NewServiceEntry.step, RR.isPTR] at hr ⊢

/-- A list with exactly one element of a kind splits around that element. -/
theorem split_of_filter_eq_singleton (p : RR → Bool) (rs : List RR) (x : RR)
    (h : rs.filter p = [x]) :
    ∃ pre post, rs = pre ++ x :: post ∧ (∀ r ∈ pre, p r = false) ∧
      (∀ r ∈ post, p r = false) := by
  obtain ⟨pre, post, h1, h2, _, h4⟩ := List.filter_eq_cons_iff.1 h
  refine ⟨pre, post, h1, ?_, ?_⟩
  · intro r hr; simpa using h2 r hr
  · intro r hr; simpa using (List.filter_eq_nil_iff.1 h4) r hr

/-- The address is that of the last A record. -/
theorem NewServiceEntry.IP_of_split (msg : Msg) (pre post : List RR) (a : Option (List Nat))
    (h : records msg = pre ++ RR.A a :: post) (hpost : ∀ r ∈ post, r.isA = false) :
    (NewServiceEntry msg).IP = a := by
  rw [NewServiceEntry, h, List.foldl_append, List.foldl_cons,
    NewServiceEntry.foldl_IP post _ hpost]
  rfl

/-- The port is that of the last SRV record. -/
theorem NewServiceEntry.Port_of_split (msg : Msg) (pre post : List RR) (port : Nat)
    (h : records msg = pre ++ RR.SRV port :: post) (hpost : ∀ r ∈ post, r.isSRV = false) :
    (NewServiceEntry msg).Port = port := by
  rw [NewServiceEntry, h, List.foldl_append, List.foldl_cons,
    NewServiceEntry.foldl_Port post _ hpost]
  rfl

/-- The attributes are those of the last TXT record. -/
theorem NewServiceEntry.Info_of_split (msg : Msg) (pre post : List RR) (L : List String)
    (h : records msg = pre ++ RR.TXT L :: post) (hpost : ∀ r ∈ post, r.isTXT = false) :
    (NewServiceEntry msg).Info = some (txtInfo L) := by
  rw [NewServiceEntry, h, List.foldl_append, List.foldl_cons,
    NewServiceEntry.foldl_Info post _ hpost]
  rfl

/-- Reading a key in the map of a TXT record: the value of the last entry with that key. -/
theorem txtInfo.get_eq (L : List String) (k : String) :
    (txtInfo L).get k =
      (L.reverse.find? (fun e => decide (entryKey e = k))).map entryValue := by
  cases hf : L.reverse.find? (fun e => decide (entryKey e = k)) with
  | none =>
    rw [List.find?_eq_none] at hf
    rw [txtInfo, txtInfo.get_go_of_not_key L [] k]
    · rfl
    · intro e he hk
      rw [(Cut_eq_entry e).1] at hk
      exact hf e (List.mem_reverse.2 he) (by simpa using hk)
  | some e =>
    obtain ⟨hk, as, bs, hsplit, has⟩ := List.find?_eq_some.1 hf
    have hk' : entryKey e = k := by simpa using hk
    have hL : L = bs.reverse ++ e :: as.reverse := by
      have := congrArg List.reverse hsplit
      simpa using this
    have := txtInfo.get_go_last bs.reverse e as.reverse (by
      intro e' he' hne
      rw [(Cut_eq_entry e').1, (Cut_eq_entry e).1, hk'] at hne
      have := has e' (List.mem_reverse.1 he')
      simp [hne] at this) []
    rw [(Cut_eq_entry e).1, (Cut_eq_entry e).2, hk', ← hL] at this
    rw [txtInfo, this]
    rfl

/-! ## Claims on the record mapper -/

/-- C6, completeness derivation: a message with exactly one A record, of non-nil address
`a`, exactly one SRV record, of nonzero port `p`, and exactly one TXT record, of entries
`L`, in whatever sections and order, is mapped to an entry with `IP = a`, `Port = p`, an
`Info` in which every key reads the value of the last entry of `L` with that key, and the
entry is complete. -/
theorem C6_completeness_derivation (msg : Msg) (a : List Nat) (p : Nat) (L : List String)
    (hA : (records msg).filter RR.isA = [RR.A (some a)])
    (hS : (records msg).filter RR.isSRV = [RR.SRV p]) (hp : 0 < p)
    (hT : (records msg).filter RR.isTXT = [RR.TXT L]) :
    (NewServiceEntry msg).IP = some a ∧ (NewServiceEntry msg).Port = p ∧
    (∃ m, (NewServiceEntry msg).Info = some m ∧ ∀ k,
      m.get k = (L.reverse.find? (fun e => decide (entryKey e = k))).map entryValue) ∧
    (NewServiceEntry msg).Complete = true := by
  obtain ⟨preA, postA, hA1, _, hA3⟩ := split_of_filter_eq_singleton _ _ _ hA
  obtain ⟨preS, postS, hS1, _, hS3⟩ := split_of_filter_eq_singleton _ _ _ hS
  obtain ⟨preT, postT, hT1, _, hT3⟩ := split_of_filter_eq_singleton _ _ _ hT
  have h1 := NewServiceEntry.IP_of_split msg preA postA _ hA1 hA3
  have h2 := NewServiceEntry.Port_of_split msg preS postS _ hS1 hS3
  have h3 := NewServiceEntry.Info_of_split msg preT postT _ hT1 hT3
  refine ⟨h1, h2, ⟨txtInfo L, h3, txtInfo.get_eq L⟩, ?_⟩
  simp [ServiceEntry.Complete, h1, h2, h3, hp]

/-- C6 at the message of the specification, its records spread over the three sections:
address 192.0.2.5, port 80 and the entries `foo=bar` and `baz`. -/
theorem C6_completeness_derivation_witness :
    NewServiceEntry ⟨[RR.TXT ["foo=bar", "baz"]], [RR.SRV 80], [RR.A (some [192, 0, 2, 5])]⟩ =
      ⟨"", some [192, 0, 2, 5], 80, some [("foo", "bar"), ("baz", "")]⟩ ∧
    GoMap.get [("foo", "bar"), ("baz", "")] "foo" = some "bar" ∧
    GoMap.get [("foo", "bar"), ("baz", "")] "baz" = some "" ∧
    (NewServiceEntry
      ⟨[RR.TXT ["foo=bar", "baz"]], [RR.SRV 80], [RR.A (some [192, 0, 2, 5])]⟩).Complete
        = true :=
  ⟨by decide, by decide, by decide,
    (C6_completeness_derivation
      ⟨[RR.TXT ["foo=bar", "baz"]], [RR.SRV 80], [RR.A (some [192, 0, 2, 5])]⟩
      [192, 0, 2, 5] 80 ["foo=bar", "baz"] (by decide) (by decide) (by decide)
      (by decide)).2.2.2⟩

/-- C7 fails as stated: the last PTR record has the target `.c`, whose first separator is
its first character, so the substring before it is empty; the name stays the `a` of the
earlier PTR record. -/
theorem C7_ptr_name_extraction_counterexample :
    records ⟨[RR.PTR "a.b", RR.PTR ".c"], [], []⟩ = [RR.PTR "a.b"] ++ RR.PTR ".c" :: [] ∧
    (".c" : String).data = [] ++ '.' :: ['c'] ∧
    (NewServiceEntry ⟨[RR.PTR "a.b", RR.PTR ".c"], [], []⟩).Name = "a" ∧
    (NewServiceEntry ⟨[RR.PTR "a.b", RR.PTR ".c"], [], []⟩).Name ≠ "" :=
  ⟨by decide, by decide, by decide, by decide⟩

/-- C7 as amended: when the target of the last PTR record of the message has its first
separator after a non-empty label, the name is that label, whatever the earlier PTR records;
when the target starts with the separator the record does not set the name, which is what
the records before it made it. -/
theorem C7_ptr_name_extraction (msg : Msg) (pre post : List RR) (t : String)
    (label rest : List Char)
    (h : records msg = pre ++ RR.PTR t :: post) (hpost : ∀ r ∈ post, r.isPTR = false)
    (ht : t.data = label ++ '.' :: rest) (hl : '.' ∉ label) :
    (label ≠ [] → (NewServiceEntry msg).Name = ⟨label⟩) ∧
    (label = [] → (NewServiceEntry msg).Name = (NewServiceEntry ⟨pre, [], []⟩).Name) := by
  have hi : IndexByte t '.' = ((label.length : Nat) : Int) := by
    have := indexFrom_single_of_split '.' label rest hl 0
    rw [Nat.zero_add] at this
    rw [← this, ← ht]
    rfl
  have hfold : (NewServiceEntry msg).Name =
      (NewServiceEntry.step (pre.foldl NewServiceEntry.step ServiceEntry.zero) (RR.PTR t)).Name := by
    rw [NewServiceEntry, h, List.foldl_append, List.foldl_cons,
      NewServiceEntry.foldl_Name post _ hpost]
  constructor
  · intro hne
    have hpos : 0 < label.length := List.length_pos.2 hne
    rw [hfold]
    simp only [NewServiceEntry.step, hi, Int.toNat_ofNat]
    rw [if_pos (by exact_mod_cast hpos)]
    simp only [sliceTo, ht, List.take_left]
  · intro he
    subst he
    rw [hfold]
    simp only [NewServiceEntry.step, hi, List.length_nil]
    rw [if_neg (by simp)]
    simp [NewServiceEntry, records]

/-- C7 as amended, at a message whose last PTR record comes after another PTR record. -/
theorem C7_ptr_name_extraction_witness :
    (NewServiceEntry ⟨[RR.PTR "a.b"], [RR.PTR "cam._hap._tcp.local.", RR.SRV 80], []⟩).Name
      = "cam" :=
  (C7_ptr_name_extraction ⟨[RR.PTR "a.b"], [RR.PTR "cam._hap._tcp.local.", RR.SRV 80], []⟩
    [RR.PTR "a.b"] [RR.SRV 80] "cam._hap._tcp.local." "cam".data "_hap._tcp.local.".data
    (by decide) (by decide) (by decide) (by decide)).1 (by decide)

/-- C8, TXT entry parsing: when the only TXT record of the message has the entries `L`, the
keys of `Info` are unique and are exactly the keys of the entries of `L`, the key of an entry
being the part before its first `=` (the whole entry when it has none) and its value the
part after that `=` (empty when it has none); a key reads the value of the last entry of `L`
that has it. -/
theorem C8_txt_entry_parsing (msg : Msg) (L : List String)
    (hT : (records msg).filter RR.isTXT = [RR.TXT L]) :
    ∃ m, (NewServiceEntry msg).Info = some m ∧ m.keys.Nodup ∧
      (∀ k, k ∈ m.keys ↔ ∃ e ∈ L, entryKey e = k) ∧
      (∀ (pre : List String) (e : String) (post : List String), L = pre ++ e :: post →
        (∀ e' ∈ post, entryKey e' ≠ entryKey e) → m.get (entryKey e) = some (entryValue e)) := by
  obtain ⟨preT, postT, hT1, _, hT3⟩ := split_of_filter_eq_singleton _ _ _ hT
  refine ⟨txtInfo L, NewServiceEntry.Info_of_split msg preT postT _ hT1 hT3, ?_, ?_, ?_⟩
  · exact txtInfo.nodup_keys_go L [] (by simp [GoMap.keys])
  · intro k
    rw [txtInfo, txtInfo.mem_keys_go]
    simp only [GoMap.keys, List.map_nil, List.not_mem_nil, false_or]
    constructor
    · rintro ⟨e, he, hk⟩; exact ⟨e, he, by rw [← (Cut_eq_entry e).1]; exact hk⟩
    · rintro ⟨e, he, hk⟩; exact ⟨e, he, by rw [(Cut_eq_entry e).1]; exact hk⟩
  · intro pre e post hL hpost
    have := txtInfo.get_go_last pre e post (by
      intro e' he'
      rw [(Cut_eq_entry e').1, (Cut_eq_entry e).1]
      exact hpost e' he') []
    rw [(Cut_eq_entry e).1, (Cut_eq_entry e).2, ← hL] at this
    exact this

/-- C8 at a TXT record with an entry with two `=`, an entry without `=`, two entries with
the same key, and an entry that starts with `=`. -/
theorem C8_txt_entry_parsing_witness :
    (NewServiceEntry ⟨[RR.TXT ["a=b=c", "k", "x=1", "x=2", "=v"]], [], []⟩).Info =
      some [("a", "b=c"), ("k", ""), ("x", "2"), ("", "v")] ∧
    entryKey "a=b=c" = "a" ∧ entryValue "a=b=c" = "b=c" ∧
    entryKey "k" = "k" ∧ entryValue "k" = "" ∧
    ∃ m, (NewServiceEntry ⟨[RR.TXT ["a=b=c", "k", "x=1", "x=2", "=v"]], [], []⟩).Info
      = some m ∧ m.keys.Nodup :=
  ⟨by decide, by decide, by decide, by decide, by decide,
    (C8_txt_entry_parsing ⟨[RR.TXT ["a=b=c", "k", "x=1", "x=2", "=v"]], [], []⟩
      ["a=b=c", "k", "x=1", "x=2", "=v"] (by decide)).imp (fun _ h => ⟨h.1, h.2.1⟩)⟩

/-- C9, TXT replace-not-merge: the `Info` of a message is the mapping built from its last
TXT record alone, in the order answer, authority, additional; a key of no entry of that
record is absent from `Info`, whatever the earlier TXT records hold. -/
theorem C9_txt_replace_not_merge (msg : Msg) (pre post : List RR) (L : List String)
    (h : records msg = pre ++ RR.TXT L :: post) (hpost : ∀ r ∈ post, r.isTXT = false) :
    (NewServiceEntry msg).Info = (NewServiceEntry ⟨[RR.TXT L], [], []⟩).Info ∧
    ∃ m, (NewServiceEntry msg).Info = some m ∧
      ∀ k, (∀ e ∈ L, entryKey e ≠ k) → k ∉ m.keys ∧ m.get k = none := by
  have hI := NewServiceEntry.Info_of_split msg pre post L h hpost
  refine ⟨?_, txtInfo L, hI, ?_⟩
  · rw [hI]; rfl
  · intro k hk
    have : k ∉ (txtInfo L).keys := by
      rw [txtInfo, txtInfo.mem_keys_go]
      simp only [GoMap.keys, List.map_nil, List.not_mem_nil, false_or]
      rintro ⟨e, he, hke⟩
      rw [(Cut_eq_entry e).1] at hke
      exact hk e he hke
    exact ⟨this, (GoMap.get_eq_none_iff _ _).2 this⟩

/-- C9 at a message with a TXT record in the answer section and another one in the
additional section: the key `old` of the first is absent. -/
theorem C9_txt_replace_not_merge_witness :
    (NewServiceEntry ⟨[RR.TXT ["old=1", "id=7"]], [RR.A none], [RR.TXT ["id=8"], RR.SRV 1]⟩).Info
      = some [("id", "8")] ∧
    (NewServiceEntry ⟨[RR.TXT ["old=1", "id=7"]], [RR.A none], [RR.TXT ["id=8"], RR.SRV 1]⟩).Info
      = (NewServiceEntry ⟨[RR.TXT ["id=8"]], [], []⟩).Info :=
  ⟨by decide,
    (C9_txt_replace_not_merge
      ⟨[RR.TXT ["old=1", "id=7"]], [RR.A none], [RR.TXT ["id=8"], RR.SRV 1]⟩
      [RR.TXT ["old=1", "id=7"], RR.A none] [RR.SRV 1] ["id=8"] (by decide) (by decide)).1⟩

/-- C10, last A and last SRV win over the concatenated sections: the address is that of
the last A record of answer, authority and additional sections appended in that order, the
port that of the last SRV record; without an A record the address is unset, without an SRV
record the port is 0. -/
theorem C10_last_A_last_SRV_wins (msg : Msg) :
    (∀ (pre post : List RR) (a : Option (List Nat)),
      msg.Answer ++ msg.Ns ++ msg.Extra = pre ++ RR.A a :: post →
      (∀ r ∈ post, r.isA = false) → (NewServiceEntry msg).IP = a) ∧
    (∀ (pre post : List RR) (port : Nat),
      msg.Answer ++ msg.Ns ++ msg.Extra = pre ++ RR.SRV port :: post →
      (∀ r ∈ post, r.isSRV = false) → (NewServiceEntry msg).Port = port) ∧
    ((∀ r ∈ msg.Answer ++ msg.Ns ++ msg.Extra, r.isA = false) →
      (NewServiceEntry msg).IP = none) ∧
    ((∀ r ∈ msg.Answer ++ msg.Ns ++ msg.Extra, r.isSRV = false) →
      (NewServiceEntry msg).Port = 0) := by
  refine ⟨?_, ?_, ?_, ?_⟩
  · intro pre post a h hpost
    exact NewServiceEntry.IP_of_split msg pre post a h hpost
  · intro pre post port h hpost
    exact NewServiceEntry.Port_of_split msg pre post port h hpost
  · intro h
    exact NewServiceEntry.foldl_IP (records msg) ServiceEntry.zero h
  · intro h
    exact NewServiceEntry.foldl_Port (records msg) ServiceEntry.zero h

/-- C10 at a message with an A and an SRV record in the answer section and others in the
additional section: those of the additional section win. -/
theorem C10_last_A_last_SRV_wins_witness :
    NewServiceEntry ⟨[RR.A (some [192, 0, 2, 5]), RR.SRV 80], [],
      [RR.SRV 8080, RR.A (some [192, 0, 2, 6])]⟩ = ⟨"", some [192, 0, 2, 6], 8080, none⟩ ∧
    (NewServiceEntry ⟨[RR.A (some [192, 0, 2, 5]), RR.SRV 80], [],
      [RR.SRV 8080, RR.A (some [192, 0, 2, 6])]⟩).IP = some [192, 0, 2, 6] ∧
    (NewServiceEntry ⟨[RR.A (some [192, 0, 2, 5]), RR.SRV 80], [],
      [RR.SRV 8080, RR.A (some [192, 0, 2, 6])]⟩).Port = 8080 ∧
    (NewServiceEntry ⟨[RR.PTR "cam.local."], [], []⟩).IP = none ∧
    (NewServiceEntry ⟨[RR.PTR "cam.local."], [], []⟩).Port = 0 :=
  ⟨by decide,
    (C10_last_A_last_SRV_wins ⟨[RR.A (some [192, 0, 2, 5]), RR.SRV 80], [],
      [RR.SRV 8080, RR.A (some [192, 0, 2, 6])]⟩).1
      [RR.A (some [192, 0, 2, 5]), RR.SRV 80, RR.SRV 8080] [] (some [192, 0, 2, 6])
      (by decide) (by decide),
    (C10_last_A_last_SRV_wins ⟨[RR.A (some [192, 0, 2, 5]), RR.SRV 80], [],
      [RR.SRV 8080, RR.A (some [192, 0, 2, 6])]⟩).2.1
      [RR.A (some [192, 0, 2, 5]), RR.SRV 80] [RR.A (some [192, 0, 2, 6])] 8080
      (by decide) (by decide),
    (C10_last_A_last_SRV_wins ⟨[RR.PTR "cam.local."], [], []⟩).2.2.1 (by decide),
    (C10_last_A_last_SRV_wins ⟨[RR.PTR "cam.local."], [], []⟩).2.2.2 (by decide)⟩

/-- Records of other types leave the entry alone. -/
theorem NewServiceEntry.foldl_filter_isKnown (rs : List RR) :
    ∀ e : ServiceEntry,
      (rs.filter RR.isKnown).foldl NewServiceEntry.step e = rs.foldl NewServiceEntry.step e := by
  induction rs with
  | nil => intro e; rfl
  | cons r rs ih =>
    intro e
    cases r <;> simp [List.filter, RR.isKnown, RR.isPTR, RR.isA, RR.isSRV, RR.isTXT, ih]
    rfl

/-- C11, empty TXT sets non-nil attributes: when the last TXT record of the message has no
entry, `Info` is non-nil and empty, and the entry is complete as soon as its address is set
and its port is nonzero; a message without a TXT record has a nil `Info` and is not
complete. -/
theorem C11_empty_txt_sets_attributes (msg : Msg) :
    (∀ pre post : List RR, records msg = pre ++ RR.TXT [] :: post →
      (∀ r ∈ post, r.isTXT = false) →
      (NewServiceEntry msg).Info = some [] ∧
      ((NewServiceEntry msg).IP ≠ none → (NewServiceEntry msg).Port ≠ 0 →
        (NewServiceEntry msg).Complete = true)) ∧
    ((∀ r ∈ records msg, r.isTXT = false) →
      (NewServiceEntry msg).Info = none ∧ (NewServiceEntry msg).Complete = false) := by
  constructor
  · intro pre post h hpost
    have hI := NewServiceEntry.Info_of_split msg pre post [] h hpost
    refine ⟨hI, ?_⟩
    intro hip hport
    simp only [ServiceEntry.Complete, hI, Option.isSome_some, Bool.and_true,
      Bool.and_eq_true, decide_eq_true_eq]
    exact ⟨Option.isSome_iff_ne_none.2 hip, Nat.pos_of_ne_zero hport⟩
  · intro h
    have hI : (NewServiceEntry msg).Info = none :=
      NewServiceEntry.foldl_Info (records msg) ServiceEntry.zero h
    refine ⟨hI, ?_⟩
    simp [ServiceEntry.Complete, hI]

/-- C11 at a message whose last TXT record is empty, after a TXT record with an entry, and at
a message without TXT record. -/
theorem C11_empty_txt_sets_attributes_witness :
    NewServiceEntry ⟨[RR.TXT ["a=b"], RR.A (some [192, 0, 2, 5])], [RR.TXT []], [RR.SRV 80]⟩ =
      ⟨"", some [192, 0, 2, 5], 80, some []⟩ ∧
    (NewServiceEntry
      ⟨[RR.TXT ["a=b"], RR.A (some [192, 0, 2, 5])], [RR.TXT []], [RR.SRV 80]⟩).Complete
        = true ∧
    (NewServiceEntry ⟨[RR.A (some [192, 0, 2, 5])], [], [RR.SRV 80]⟩).Info = none ∧
    (NewServiceEntry ⟨[RR.A (some [192, 0, 2, 5])], [], [RR.SRV 80]⟩).Complete = false :=
  ⟨by decide,
    ((C11_empty_txt_sets_attributes
      ⟨[RR.TXT ["a=b"], RR.A (some [192, 0, 2, 5])], [RR.TXT []], [RR.SRV 80]⟩).1
      [RR.TXT ["a=b"], RR.A (some [192, 0, 2, 5])] [RR.SRV 80] (by decide) (by decide)).2
      (by decide) (by decide),
    ((C11_empty_txt_sets_attributes ⟨[RR.A (some [192, 0, 2, 5])], [], [RR.SRV 80]⟩).2
      (by decide)).1,
    ((C11_empty_txt_sets_attributes ⟨[RR.A (some [192, 0, 2, 5])], [], [RR.SRV 80]⟩).2
      (by decide)).2⟩

/-- C12, completeness definition: `Complete` returns true exactly when the address is
non-nil, the port is nonzero and `Info` is non-nil; an `Info` that is empty but non-nil
counts as present. -/
theorem C12_completeness_definition (e : ServiceEntry) :
    (e.Complete = true ↔ e.IP ≠ none ∧ e.Port ≠ 0 ∧ e.Info ≠ none) ∧
    ((⟨e.Name, e.IP, e.Port, some []⟩ : ServiceEntry).Complete = true ↔
      e.IP ≠ none ∧ e.Port ≠ 0) := by
  simp only [ServiceEntry.Complete, Bool.and_eq_true, decide_eq_true_eq,
    Option.isSome_iff_ne_none, Nat.pos_iff_ne_zero]
  constructor
  · tauto
  · simp

/-- C12 at an entry with an empty map, complete, and at entries that lack the address, the
port or the map. -/
theorem C12_completeness_definition_witness :
    (⟨"cam", some [192, 0, 2, 5], 80, some []⟩ : ServiceEntry).Complete = true ∧
    (⟨"cam", none, 80, some []⟩ : ServiceEntry).Complete = false ∧
    (⟨"cam", some [192, 0, 2, 5], 0, some []⟩ : ServiceEntry).Complete = false ∧
    (⟨"cam", some [192, 0, 2, 5], 80, none⟩ : ServiceEntry).Complete = false :=
  ⟨(C12_completeness_definition ⟨"cam", some [192, 0, 2, 5], 80, some []⟩).1.2
      ⟨by decide, by decide, by decide⟩,
    by decide, by decide, by decide⟩

/-- C13, pointer-name extractor: `GetPTR` returns the target of the first PTR record of the
answer section and the empty string when that section has none; the authority and
additional sections play no part, so with no PTR record in any section the result is the
empty string. -/
theorem C13_pointer_name_extractor (msg : Msg) :
    (∀ (pre post : List RR) (p : String), msg.Answer = pre ++ RR.PTR p :: post →
      (∀ r ∈ pre, r.isPTR = false) → GetPTR msg = p) ∧
    ((∀ r ∈ msg.Answer, r.isPTR = false) → GetPTR msg = "") ∧
    ((∀ r ∈ records msg, r.isPTR = false) → GetPTR msg = "") ∧
    (∀ ns extra : List RR, GetPTR ⟨msg.Answer, ns, extra⟩ = GetPTR msg) := by
  have none_of : ∀ rs : List RR, (∀ r ∈ rs, r.isPTR = false) → GetPTR.go rs = "" := by
    intro rs
    induction rs with
    | nil => intro _; rfl
    | cons r rs ih =>
      intro h
      have hr := h r (List.mem_cons_self _ _)
      have := ih (fun r' hr' => h r' (List.mem_cons_of_mem _ hr'))
      cases r <;> simp [RR.isPTR] at hr <;> simpa [GetPTR.go] using this
  refine ⟨?_, ?_, ?_, ?_⟩
  · intro pre post p h hpre
    rw [GetPTR, h]
    clear h
    induction pre with
    | nil => rfl
    | cons r pre ih =>
      have hr := hpre r (List.mem_cons_self _ _)
      have := ih (fun r' hr' => hpre r' (List.mem_cons_of_mem _ hr'))
      cases r <;> simp [RR.isPTR] at hr <;> simpa [GetPTR.go] using this
  · intro h
    exact none_of _ h
  · intro h
    refine none_of _ (fun r hr => h r ?_)
    simp only [records, List.mem_append]
    exact Or.inl (Or.inl hr)
  · intro ns extra
    rfl

/-- C13 at a message with two PTR records in the answer section, and at a message whose
only PTR record is in the additional section. -/
theorem C13_pointer_name_extractor_witness :
    GetPTR ⟨[RR.A none, RR.PTR "cam._hap._tcp.local.", RR.PTR "door._hap._tcp.local."], [],
      []⟩ = "cam._hap._tcp.local." ∧
    GetPTR ⟨[RR.A none], [RR.PTR "a.local."], [RR.PTR "cam._hap._tcp.local."]⟩ = "" ∧
    GetPTR ⟨[], [], []⟩ = "" :=
  ⟨(C13_pointer_name_extractor
      ⟨[RR.A none, RR.PTR "cam._hap._tcp.local.", RR.PTR "door._hap._tcp.local."], [], []⟩).1
      [RR.A none] [RR.PTR "door._hap._tcp.local."] "cam._hap._tcp.local." (by decide)
      (by decide),
    (C13_pointer_name_extractor
      ⟨[RR.A none], [RR.PTR "a.local."], [RR.PTR "cam._hap._tcp.local."]⟩).2.1 (by decide),
    (C13_pointer_name_extractor ⟨[], [], []⟩).2.2.1 (by decide)⟩

/-- C14, unknown record types are ignored: two messages that differ only by records of other
types than PTR, A, SRV and TXT, inserted or removed at any positions of any sections, are
mapped to the same entry; a message made only of such records, or empty, is mapped to the
entry with empty name, unset address, port 0 and nil `Info`. -/
theorem C14_unknown_records_ignored (msg : Msg) :
    (∀ msg' : Msg, msg'.Answer.filter RR.isKnown = msg.Answer.filter RR.isKnown →
      msg'.Ns.filter RR.isKnown = msg.Ns.filter RR.isKnown →
      msg'.Extra.filter RR.isKnown = msg.Extra.filter RR.isKnown →
      NewServiceEntry msg' = NewServiceEntry msg) ∧
    ((∀ r ∈ records msg, r.isKnown = false) → NewServiceEntry msg = ⟨"", none, 0, none⟩) := by
  have key : ∀ m : Msg, NewServiceEntry m =
      ((m.Answer.filter RR.isKnown ++ m.Ns.filter RR.isKnown ++
        m.Extra.filter RR.isKnown).foldl NewServiceEntry.step ServiceEntry.zero) := by
    intro m
    rw [NewServiceEntry, ← NewServiceEntry.foldl_filter_isKnown, records, List.filter_append,
      List.filter_append]
  constructor
  · intro msg' h1 h2 h3
    rw [key msg', key msg, h1, h2, h3]
  · intro h
    rw [NewServiceEntry, ← NewServiceEntry.foldl_filter_isKnown,
      List.filter_eq_nil_iff.2 (fun r hr => by simp [h r hr])]
    rfl

/-- C14 at a message with records of other types before, between and after its A, SRV, TXT
and PTR records, in all sections. -/
theorem C14_unknown_records_ignored_witness :
    NewServiceEntry ⟨[RR.other 28, RR.PTR "cam.local.", RR.other 47], [RR.other 41, RR.SRV 80],
        [RR.A (some [192, 0, 2, 5]), RR.other 28, RR.TXT ["a=b"], RR.other 1000]⟩ =
      NewServiceEntry ⟨[RR.PTR "cam.local."], [RR.SRV 80],
        [RR.A (some [192, 0, 2, 5]), RR.TXT ["a=b"]]⟩ ∧
    NewServiceEntry ⟨[RR.other 28], [RR.other 47], [RR.other 41, RR.other 28]⟩ =
      ⟨"", none, 0, none⟩ ∧
    NewServiceEntry ⟨[], [], []⟩ = ⟨"", none, 0, none⟩ :=
  ⟨(C14_unknown_records_ignored ⟨[RR.PTR "cam.local."], [RR.SRV 80],
        [RR.A (some [192, 0, 2, 5]), RR.TXT ["a=b"]]⟩).1
      ⟨[RR.other 28, RR.PTR "cam.local.", RR.other 47], [RR.other 41, RR.SRV 80],
        [RR.A (some [192, 0, 2, 5]), RR.other 28, RR.TXT ["a=b"], RR.other 1000]⟩
      (by decide) (by decide) (by decide),
    (C14_unknown_records_ignored ⟨[RR.other 28], [RR.other 47], [RR.other 41, RR.other 28]⟩).2
      (by decide),
    (C14_unknown_records_ignored ⟨[], [], []⟩).2 (by decide)⟩

/-! ## Further claims on the discovery session -/

/-- When every read delivers a datagram and the callback never accepts, the loop makes one
read more than there are datagrams: the one that fails at the deadline. -/
theorem Discovery.loop_nreads_all {σ : Type} (service : String)
    (Unpack : List Nat → Option Msg) (onentry : σ → ServiceEntry → Bool × σ)
    (reads : List ReadResult) :
    ∀ (n : Nat) (skipPTR : List String) (s : σ),
      (∀ r ∈ reads, r.isData = true) →
      (∀ c ∈ (Discovery.loop service Unpack onentry reads n skipPTR s).calls, c.stop = false) →
      (Discovery.loop service Unpack onentry reads n skipPTR s).nreads
        = n + reads.length + 1 := by
  induction reads with
  | nil => intro n skipPTR s _ _; simp [Discovery.loop]
  | cons r rest ih =>
    intro n skipPTR s hdata hstop
    have hr0 := hdata r (List.mem_cons_self _ _)
    have hrest : ∀ r ∈ rest, r.isData = true :=
      fun r hr => hdata r (List.mem_cons_of_mem _ hr)
    obtain ⟨b0, hb0⟩ : ∃ b0, r = ReadResult.data b0 := by
      cases r with
      | data b => exact ⟨b, rfl⟩
      | fail e => cases hr0
    subst hb0
    have hlen : n + (ReadResult.data b0 :: rest).length + 1 = (n + 1) + rest.length + 1 := by
      simp only [List.length_cons]; omega
    rw [hlen]
    rcases Discovery.loop_data_cases service Unpack b0 skipPTR with hsk | ⟨msg, hmsg, hsuf, hskip⟩
    · rw [Discovery.loop_skip service Unpack onentry b0 rest n skipPTR s hsk] at hstop ⊢
      exact ih _ _ _ hrest hstop
    · rw [Discovery.loop_offer service Unpack onentry b0 rest n skipPTR s msg hmsg hsuf hskip]
        at hstop ⊢
      by_cases hst : (onentry s (NewServiceEntry msg)).1 = true
      · rw [if_pos hst] at hstop
        have := hstop _ (List.mem_singleton_self _)
        cases this
      · rw [if_neg hst] at hstop ⊢
        exact ih _ _ _ hrest (fun c hc => hstop c (List.mem_cons_of_mem _ hc))

/-- C15, setup errors are fatal: when binding the socket fails, or the socket is bound and
setting the deadline fails, or both succeed and packing the query fails, `Discovery` returns
that error, the callback is not invoked, no datagram is read and the state of the callback
is untouched. -/
theorem C15_setup_errors_fatal {σ : Type} (net : Net) (service : String)
    (onentry : σ → ServiceEntry → Bool × σ) (s : σ) (e : Err) :
    (net.ListenMulticastUDP = some e →
      (Discovery net service onentry s).err = some e ∧
      (Discovery net service onentry s).calls = [] ∧
      (Discovery net service onentry s).nreads = 0 ∧
      (Discovery net service onentry s).state = s) ∧
    (net.ListenMulticastUDP = none → net.SetDeadline = some e →
      (Discovery net service onentry s).err = some e ∧
      (Discovery net service onentry s).calls = [] ∧
      (Discovery net service onentry s).nreads = 0 ∧
      (Discovery net service onentry s).state = s) ∧
    (net.ListenMulticastUDP = none → net.SetDeadline = none → net.Pack service = some e →
      (Discovery net service onentry s).err = some e ∧
      (Discovery net service onentry s).calls = [] ∧
      (Discovery net service onentry s).nreads = 0 ∧
      (Discovery net service onentry s).state = s) := by
  refine ⟨?_, ?_, ?_⟩
  · intro h1
    simp only [Discovery, h1]
    exact ⟨trivial, trivial, trivial, trivial⟩
  · intro h1 h2
    simp only [Discovery, h1, h2]
    exact ⟨trivial, trivial, trivial, trivial⟩
  · intro h1 h2 h3
    simp only [Discovery, h1, h2, h3]
    exact ⟨trivial, trivial, trivial, trivial⟩

/-- C15 at three sessions, one for each setup step that fails, with a datagram of an
accessory waiting to be read. -/
theorem C15_setup_errors_fatal_witness :
    ((Discovery ⟨some (Err.other "bind: address already in use"), none, fun _ => none,
        demoUnpack, [ReadResult.data [1]]⟩ ServiceHAP neverAccept 0).err
      = some (Err.other "bind: address already in use") ∧
     (Discovery ⟨some (Err.other "bind: address already in use"), none, fun _ => none,
        demoUnpack, [ReadResult.data [1]]⟩ ServiceHAP neverAccept 0).calls = [] ∧
     (Discovery ⟨some (Err.other "bind: address already in use"), none, fun _ => none,
        demoUnpack, [ReadResult.data [1]]⟩ ServiceHAP neverAccept 0).nreads = 0 ∧
     (Discovery ⟨some (Err.other "bind: address already in use"), none, fun _ => none,
        demoUnpack, [ReadResult.data [1]]⟩ ServiceHAP neverAccept 0).state = 0) ∧
    (Discovery ⟨none, some (Err.other "set deadline: bad file descriptor"), fun _ => none,
        demoUnpack, [ReadResult.data [1]]⟩ ServiceHAP neverAccept 0).err
      = some (Err.other "set deadline: bad file descriptor") ∧
    (Discovery ⟨none, none, fun _ => some (Err.other "dns: bad rdata"),
        demoUnpack, [ReadResult.data [1]]⟩ ServiceHAP neverAccept 0).err
      = some (Err.other "dns: bad rdata") :=
  ⟨(C15_setup_errors_fatal ⟨some (Err.other "bind: address already in use"), none,
      fun _ => none, demoUnpack, [ReadResult.data [1]]⟩ ServiceHAP neverAccept 0
      (Err.other "bind: address already in use")).1 rfl,
    ((C15_setup_errors_fatal ⟨none, some (Err.other "set deadline: bad file descriptor"),
      fun _ => none, demoUnpack, [ReadResult.data [1]]⟩ ServiceHAP neverAccept 0
      (Err.other "set deadline: bad file descriptor")).2.1 rfl rfl).1,
    ((C15_setup_errors_fatal ⟨none, none, fun _ => some (Err.other "dns: bad rdata"),
      demoUnpack, [ReadResult.data [1]]⟩ ServiceHAP neverAccept 0
      (Err.other "dns: bad rdata")).2.2 rfl rfl rfl).1⟩

/-- C16, timeout is not an error: after a successful setup, when every read up to the
deadline delivers a datagram and the callback returns false every time it is invoked, also
when it is never invoked, every datagram is read, the read after the last one fails at the
deadline, and `Discovery` returns nil. -/
theorem C16_timeout_is_not_an_error {σ : Type} (net : Net) (service : String)
    (onentry : σ → ServiceEntry → Bool × σ) (s : σ)
    (hok : net.setupOk service)
    (hdata : ∀ r ∈ net.reads, r.isData = true)
    (hfalse : ∀ c ∈ (Discovery net service onentry s).calls, c.stop = false) :
    (Discovery net service onentry s).err = none ∧
    (Discovery net service onentry s).nreads = net.reads.length + 1 := by
  rw [Discovery_of_setupOk net service onentry s hok] at hfalse ⊢
  refine ⟨rfl, ?_⟩
  have := Discovery.loop_nreads_all service net.Unpack onentry net.reads 0 [] s hdata hfalse
  rw [Nat.zero_add] at this
  exact this

/-- C16 at a session in which two accessories answer and the callback accepts none, and at
a session in which only another service answers. -/
theorem C16_timeout_is_not_an_error_witness :
    ((Discovery (demoNet [ReadResult.data [1], ReadResult.data [0], ReadResult.data [3]])
        ServiceHAP neverAccept 0).err = none ∧
     (Discovery (demoNet [ReadResult.data [1], ReadResult.data [0], ReadResult.data [3]])
        ServiceHAP neverAccept 0).nreads =
          (demoNet [ReadResult.data [1], ReadResult.data [0],
            ReadResult.data [3]]).reads.length + 1) ∧
    (Discovery (demoNet [ReadResult.data [1], ReadResult.data [0], ReadResult.data [3]])
        ServiceHAP neverAccept 0).state = 2 ∧
    (Discovery (demoNet [ReadResult.data [4]]) ServiceHAP neverAccept 0).calls = [] ∧
    (Discovery (demoNet [ReadResult.data [4]]) ServiceHAP neverAccept 0).err = none :=
  ⟨C16_timeout_is_not_an_error
      (demoNet [ReadResult.data [1], ReadResult.data [0], ReadResult.data [3]])
      ServiceHAP neverAccept 0 ⟨rfl, rfl, rfl⟩ (by decide) (by decide),
    by decide, by decide,
    (C16_timeout_is_not_an_error (demoNet [ReadResult.data [4]])
      ServiceHAP neverAccept 0 ⟨rfl, rfl, rfl⟩ (by decide) (by decide)).1⟩

/-- The first occurrences are taken from the list, in its order. -/
theorem firstOccurrences_sublist (ms : List Msg) : (firstOccurrences ms).Sublist ms := by
  induction ms with
  | nil => exact List.Sublist.slnil
  | cons m ms ih =>
    rw [firstOccurrences]
    exact List.Sublist.cons₂ m ((List.filter_sublist _).trans ih)

/-- No pointer name occurs twice among the first occurrences. -/
theorem firstOccurrences_nodup (ms : List Msg) : ((firstOccurrences ms).map GetPTR).Nodup := by
  induction ms with
  | nil => exact List.nodup_nil
  | cons m ms ih =>
    rw [firstOccurrences, List.map_cons, List.nodup_cons]
    constructor
    · intro h
      obtain ⟨x, hx, hxm⟩ := List.mem_map.1 h
      have := (List.mem_filter.1 hx).2
      simp [hxm] at this
    · exact ih.sublist ((List.filter_sublist _).map GetPTR)

/-- Every pointer name of the list is the one of a first occurrence. -/
theorem firstOccurrences_complete (ms : List Msg) :
    ∀ m ∈ ms, GetPTR m ∈ (firstOccurrences ms).map GetPTR := by
  induction ms with
  | nil => intro m hm; cases hm
  | cons m0 ms ih =>
    intro m hm
    rw [firstOccurrences, List.map_cons, List.mem_cons]
    by_cases h : GetPTR m = GetPTR m0
    · exact Or.inl h
    · right
      rcases List.mem_cons.1 hm with hm | hm
      · exact absurd (by rw [hm]) h
      · obtain ⟨x, hx, hxm⟩ := List.mem_map.1 (ih m hm)
        exact List.mem_map.2 ⟨x, List.mem_filter.2 ⟨hx, by simpa [hxm] using h⟩, hxm⟩

/-- The matching messages of reads that start with a datagram. -/
theorem matchingMessages_data (service : String) (Unpack : List Nat → Option Msg)
    (b : List Nat) (rest : List ReadResult) :
    matchingMessages service Unpack (ReadResult.data b :: rest) =
      match Unpack b with
      | none => matchingMessages service Unpack rest
      | some m =>
        if HasSuffix (GetPTR m) service = true then m :: matchingMessages service Unpack rest
        else matchingMessages service Unpack rest := by
  cases h : Unpack b with
  | none => simp [matchingMessages, readBeforeFailure, List.filterMap_cons, h]
  | some m =>
    by_cases hs : HasSuffix (GetPTR m) service = true
    · simp [matchingMessages, readBeforeFailure, List.filterMap_cons, h, hs]
    · simp [matchingMessages, readBeforeFailure, List.filterMap_cons, h, hs]

/-- The entries the loop passes to a callback without state are the reference entries of the
messages whose pointer name is not in `skipPTR`. -/
theorem Discovery.loop_entries (service : String) (Unpack : List Nat → Option Msg)
    (f : ServiceEntry → Bool) (reads : List ReadResult) :
    ∀ (n : Nat) (skipPTR : List String),
      (Discovery.loop service Unpack (pureCallback f) reads n skipPTR ()).calls.map Call.entry =
        cutAfter f
          (((firstOccurrences (matchingMessages service Unpack reads)).filter
            (fun m => decide (GetPTR m ∉ skipPTR))).map NewServiceEntry) := by
  induction reads with
  | nil => intro n skipPTR; simp [Discovery.loop, matchingMessages, readBeforeFailure,
      firstOccurrences, cutAfter]
  | cons r rest ih =>
    intro n skipPTR
    cases r with
    | fail e => simp [Discovery.loop, matchingMessages, readBeforeFailure, firstOccurrences,
        cutAfter]
    | data b0 =>
      rw [matchingMessages_data]
      rcases Discovery.loop_data_cases service Unpack b0 skipPTR with hsk | ⟨msg, hmsg, hsuf, hskip⟩
      · rw [Discovery.loop_skip service Unpack (pureCallback f) b0 rest n skipPTR () hsk, ih]
        cases hmsg : Unpack b0 with
        | none => rfl
        | some msg =>
          dsimp only
          rcases hsk msg hmsg with h | h
          · rw [if_neg (by simp [h])]
          · by_cases hs : HasSuffix (GetPTR msg) service = true
            · rw [if_pos hs, firstOccurrences, List.filter_cons_of_neg (by simpa using h),
                List.filter_filter]
              congr 2
              apply List.filter_congr
              intro x _
              by_cases hx : GetPTR x ∈ skipPTR
              · simp [hx]
              · have : GetPTR x ≠ GetPTR msg := fun e => hx (e ▸ h)
                simp [hx, this]
            · rw [if_neg hs]
      · rw [Discovery.loop_offer service Unpack (pureCallback f) b0 rest n skipPTR () msg hmsg
          hsuf hskip, hmsg]
        dsimp only
        rw [if_pos hsuf, firstOccurrences, List.filter_cons_of_pos (by simpa using hskip),
          List.map_cons, cutAfter, List.filter_filter]
        have hfil : (firstOccurrences (matchingMessages service Unpack rest)).filter
            (fun a => decide (GetPTR a ∉ skipPTR) && decide (GetPTR a ≠ GetPTR msg)) =
            (firstOccurrences (matchingMessages service Unpack rest)).filter
              (fun m => decide (GetPTR m ∉ skipPTR ++ [GetPTR msg])) := by
          apply List.filter_congr
          intro x _
          simp [not_or]
        rw [hfil]
        by_cases hst : f (NewServiceEntry msg) = true
        · simp [pureCallback, hst]
        · simp only [pureCallback, hst, if_false, List.map_cons, Bool.false_eq_true]
          rw [ih]

/-- The value recorded for an invocation of a callback without state is the value of the
callback at the entry. -/
theorem Discovery.loop_stop_pure (service : String) (Unpack : List Nat → Option Msg)
    (f : ServiceEntry → Bool) (reads : List ReadResult) :
    ∀ (n : Nat) (skipPTR : List String),
      ∀ c ∈ (Discovery.loop service Unpack (pureCallback f) reads n skipPTR ()).calls,
        c.stop = f c.entry := by
  induction reads with
  | nil => intro n skipPTR c hc; simp [Discovery.loop] at hc
  | cons r rest ih =>
    intro n skipPTR c hc
    cases r with
    | fail e => simp [Discovery.loop] at hc
    | data b0 =>
      rcases Discovery.loop_data_cases service Unpack b0 skipPTR with hsk | ⟨msg, hmsg, hsuf, hskip⟩
      · rw [Discovery.loop_skip service Unpack (pureCallback f) b0 rest n skipPTR () hsk] at hc
        exact ih _ _ c hc
      · rw [Discovery.loop_offer service Unpack (pureCallback f) b0 rest n skipPTR () msg hmsg
          hsuf hskip] at hc
        by_cases hst : f (NewServiceEntry msg) = true
        · simp only [pureCallback, hst, if_true, List.mem_singleton] at hc
          subst hc
          exact hst.symm
        · simp only [pureCallback, hst, if_false, List.mem_cons, Bool.false_eq_true] at hc
          rcases hc with hc | hc
          · subst hc
            simpa using hst
          · exact ih _ _ c hc

/-- C19, the callback sequence of `Discovery` is the reference one: after a successful
setup and for a callback that is a function of the entry, the entries passed to the callback
are, in arrival order, `NewServiceEntry` of each datagram read before the first read failure
that unpacks, whose pointer name ends with the service name and is the first occurrence of
that pointer name, cut off after the first entry for which the callback returns true; the
invocations follow the order of the reads and no pointer name is delivered twice.  An entry
is a value of the embedding, so every entry passed is a non-nil one. -/
theorem C19_callback_sequence_reference (net : Net) (service : String)
    (f : ServiceEntry → Bool) (hok : net.setupOk service) :
    (Discovery net service (pureCallback f) ()).calls.map Call.entry =
      referenceEntries service net.Unpack f net.reads ∧
    (∀ c ∈ (Discovery net service (pureCallback f) ()).calls, c.stop = f c.entry) ∧
    (Discovery net service (pureCallback f) ()).calls.Pairwise
      (fun a c => a.idx < c.idx ∧ GetPTR a.msg ≠ GetPTR c.msg) := by
  refine ⟨?_, ?_, ?_⟩
  · rw [Discovery_of_setupOk net service (pureCallback f) () hok]
    have := Discovery.loop_entries service net.Unpack f net.reads 0 []
    simp only [List.not_mem_nil, not_false_eq_true, decide_True, List.filter_true] at this
    exact this
  · rw [Discovery_of_setupOk net service (pureCallback f) () hok]
    exact Discovery.loop_stop_pure service net.Unpack f net.reads 0 []
  · exact (Discovery_calls_pairwise net service (pureCallback f) ()).imp
      (fun h => ⟨h.1, h.2.2⟩)

/-- C19 at a session that reads an answer of an accessory, a datagram that does not unpack,
an answer for another service, a second answer of the first accessory, an answer of another
accessory, which is accepted, and more. -/
theorem C19_callback_sequence_reference_witness :
    (Discovery (demoNet [ReadResult.data [2], ReadResult.data [0], ReadResult.data [4],
        ReadResult.data [1], ReadResult.data [3], ReadResult.data [1]])
      ServiceHAP (pureCallback hasPort) ()).calls.map Call.entry =
        [NewServiceEntry demoCamAgain, NewServiceEntry demoDoor] ∧
    referenceEntries ServiceHAP demoUnpack hasPort
      [ReadResult.data [2], ReadResult.data [0], ReadResult.data [4],
        ReadResult.data [1], ReadResult.data [3], ReadResult.data [1]] =
        [NewServiceEntry demoCamAgain, NewServiceEntry demoDoor] ∧
    (Discovery (demoNet [ReadResult.data [2], ReadResult.data [0], ReadResult.data [4],
        ReadResult.data [1], ReadResult.data [3], ReadResult.data [1]])
      ServiceHAP (pureCallback hasPort) ()).calls.map Call.entry =
      referenceEntries ServiceHAP (demoNet [ReadResult.data [2], ReadResult.data [0],
        ReadResult.data [4], ReadResult.data [1], ReadResult.data [3],
        ReadResult.data [1]]).Unpack hasPort
        (demoNet [ReadResult.data [2], ReadResult.data [0], ReadResult.data [4],
          ReadResult.data [1], ReadResult.data [3], ReadResult.data [1]]).reads :=
  ⟨by decide, by decide,
    (C19_callback_sequence_reference
      (demoNet [ReadResult.data [2], ReadResult.data [0], ReadResult.data [4],
        ReadResult.data [1], ReadResult.data [3], ReadResult.data [1]])
      ServiceHAP hasPort ⟨rfl, rfl, rfl⟩).1⟩

end Mdns

namespace Streams

/-! ## Facts about the registry -/

/-- Reading the name just assigned. -/
theorem mapGet_mapSet_same (m : List (String × Nat)) (name : String) (stream : Nat) :
    mapGet (mapSet m name stream) name = some stream := by
  induction m with
  | nil => simp [mapSet, mapGet]
  | cons p m ih =>
    obtain ⟨k, v⟩ := p
    by_cases h : k = name
    · simp [mapSet, mapGet, h]
    · simp [mapSet, mapGet, h, ih]

/-- Reading another name than the one just assigned. -/
theorem mapGet_mapSet_other (m : List (String × Nat)) (name other : String) (stream : Nat)
    (h : other ≠ name) : mapGet (mapSet m name stream) other = mapGet m other := by
  induction m with
  | nil => simp [mapSet, mapGet, Ne.symm h]
  | cons p m ih =>
    obtain ⟨k, v⟩ := p
    by_cases hk : k = name
    · subst hk
      simp [mapSet, mapGet, Ne.symm h]
    · by_cases h0 : k = other
      · subst h0
        simp [mapSet, mapGet, hk]
      · simp [mapSet, mapGet, hk, h0, ih]

/-- A path `/X` with a non-empty `X` is longer than one byte, and `X` is what follows its
first byte. -/
theorem path_slash (X : String) (hX : X ≠ "") :
    len ("/" ++ X) > 1 ∧ Mdns.sliceFrom ("/" ++ X) 1 = X := by
  constructor
  · have hd : X.data ≠ [] := fun h => hX (String.ext h)
    obtain ⟨c, cs, hc⟩ := List.exists_cons_of_ne_nil hd
    have := Char.utf8Size_pos c
    have h1 : ('/' : Char).utf8Size = 1 := by decide
    simp only [len, String.data_append, hc]
    show (List.map Char.utf8Size ('/' :: c :: cs)).sum > 1
    simp only [List.map_cons, List.sum_cons, h1]
    omega
  · rfl

/-- What `New` does: it returns nil and stores nothing exactly when the source has a
character that is not whitespace. -/
theorem New_eq {τ : Type} (env : Env τ) (name source : String) (st : State τ) :
    (sanitizeMatchString source = true → New env name source st = (none, st)) ∧
    (sanitizeMatchString source = false →
      (New env name source st).1 = some st.heap.length ∧
      mapGet (New env name source st).2.streams name = some st.heap.length ∧
      (New env name source st).2.heap = st.heap ++ [env.NewStream source]) := by
  constructor
  · intro h
    simp [New, h]
  · intro h
    simp [New, h, mapGet_mapSet_same]

/-- What `GetOrPatch` does for a source that is not empty and names no stream. -/
theorem GetOrPatch_eq {τ : Type} (env : Env τ) (query : Values) (st : State τ)
    (hsrc : query.Get "src" ≠ "") (hreg : mapGet st.streams (query.Get "src") = none) :
    (query.Get "name" = "" →
      GetOrPatch env query st = Patch env "" (query.Get "src") st) ∧
    (query.Get "name" ≠ "" →
      GetOrPatch env query st = Patch env (query.Get "src") (query.Get "src") st) := by
  constructor
  · intro h
    simp [GetOrPatch, hsrc, hreg, h]
  · intro h
    simp [GetOrPatch, hsrc, hreg, h]

/-! ## Claims on the registry -/

/-- C17, the code at inputs where it departs from the claim: `New` returns nil and stores
nothing for a source without whitespace, and stores a stream for a source that is a space. -/
theorem C17_New_rejects_sources_without_spaces :
    containsSpace "rtsp://192.0.2.5/stream" = false ∧
    New demoEnv "cam" "rtsp://192.0.2.5/stream" ⟨[], []⟩ = (none, ⟨[], []⟩) ∧
    containsSpace " " = true ∧
    New demoEnv "cam" " " ⟨[], []⟩ = (some 0, ⟨[[" "]], [("cam", 0)]⟩) :=
  ⟨by decide, by decide, by decide, by decide⟩

/-- C18, the code at inputs where it departs from the claim: with the parameter `name`
provided `GetOrPatch` is `Patch(src, src)`, not `Patch(name, src)`, and without it
`GetOrPatch` is `Patch("", src)`, not `Patch(src, src)`. -/
theorem C18_GetOrPatch_dispatch_swapped :
    (GetOrPatch demoEnv [("src", ["rtsp://localhost/cam1"]), ("name", ["alias"])] demoState
        = Patch demoEnv "rtsp://localhost/cam1" "rtsp://localhost/cam1" demoState ∧
     GetOrPatch demoEnv [("src", ["rtsp://localhost/cam1"]), ("name", ["alias"])] demoState
        ≠ Patch demoEnv "alias" "rtsp://localhost/cam1" demoState ∧
     (GetOrPatch demoEnv [("src", ["rtsp://localhost/cam1"]), ("name", ["alias"])]
        demoState).2.streams = [("cam1", 0), ("rtsp://localhost/cam1", 0)]) ∧
    (GetOrPatch demoEnv [("src", ["rtsp://localhost/cam1"])] demoState
        = Patch demoEnv "" "rtsp://localhost/cam1" demoState ∧
     GetOrPatch demoEnv [("src", ["rtsp://localhost/cam1"])] demoState
        ≠ Patch demoEnv "rtsp://localhost/cam1" "rtsp://localhost/cam1" demoState ∧
     (GetOrPatch demoEnv [("src", ["rtsp://localhost/cam1"])] demoState).2.streams
        = [("cam1", 0), ("", 0)]) :=
  ⟨⟨by decide, by decide, by decide⟩, ⟨by decide, by decide, by decide⟩⟩

/-- C20 fails as stated: the empty name is registered, the source parses with scheme `rtsp`
and the path `/`, that is `/X` for the empty `X`, and `Patch` returns nil and links
nothing. -/
theorem C20_patch_alias_linking_counterexample :
    demoEnv.Parse "rtsp://localhost/" = some ⟨"rtsp", "/" ++ ""⟩ ∧
    mapGet (⟨[["rtsp://192.0.2.5/stream"]], [("cam1", 0), ("", 0)]⟩ :
      State (List String)).streams "" = some 0 ∧
    (Patch demoEnv "cam" "rtsp://localhost/"
      ⟨[["rtsp://192.0.2.5/stream"]], [("cam1", 0), ("", 0)]⟩).1 = none ∧
    mapGet (Patch demoEnv "cam" "rtsp://localhost/"
      ⟨[["rtsp://192.0.2.5/stream"]], [("cam1", 0), ("", 0)]⟩).2.streams "cam" = none ∧
    (GetOrPatch demoEnv [("src", ["rtsp://localhost/cam1"])] demoState).2 =
      ⟨[["rtsp://192.0.2.5/stream"]], [("cam1", 0), ("", 0)]⟩ :=
  ⟨by decide, by decide, by decide, by decide, by decide⟩

/-- C20 as amended: when the source parses as a URL of scheme `rtsp` with a path `/X` where
`X` is the non-empty name of a registered stream, `Patch` returns the stream registered
under `X`, the registry then maps the name to that same pointer, every other name reads as
before, no stream is allocated or modified, and the result does not depend on
`HasProducer`. -/
theorem C20_patch_alias_linking {τ : Type} (env : Env τ) (st : State τ)
    (name source X : String) (u : URL) (stream : Nat)
    (hparse : env.Parse source = some u) (hscheme : u.Scheme = "rtsp")
    (hpath : u.Path = "/" ++ X) (hX : X ≠ "") (hreg : mapGet st.streams X = some stream) :
    (Patch env name source st).1 = some stream ∧
    mapGet (Patch env name source st).2.streams name = some stream ∧
    (∀ other, other ≠ name →
      mapGet (Patch env name source st).2.streams other = mapGet st.streams other) ∧
    (Patch env name source st).2.heap = st.heap ∧
    ∀ hp : String → Bool,
      Patch (env.withHasProducer hp) name source st = Patch env name source st := by
  obtain ⟨h1, h2⟩ := path_slash X hX
  have hlink : ∀ e : Env τ, e.Parse = env.Parse → Patch.link e source st = some stream := by
    intro e he
    simp only [Patch.link, he, hparse, hscheme, hpath, h1, h2, hreg, and_self, if_true]
  have hP : ∀ e : Env τ, e.Parse = env.Parse →
      Patch e name source st = (some stream, ⟨st.heap, mapSet st.streams name stream⟩) := by
    intro e he
    simp only [Patch, hlink e he]
  rw [hP env rfl]
  refine ⟨rfl, mapGet_mapSet_same _ _ _, ?_, rfl, ?_⟩
  · intro other ho
    exact mapGet_mapSet_other _ _ _ _ ho
  · intro hp
    exact hP (env.withHasProducer hp) rfl

/-- C20 as amended, at a registry with the stream `cam1` and a source that links to it. -/
theorem C20_patch_alias_linking_witness :
    Patch demoEnv "alias" "rtsp://localhost/cam1" demoState =
      (some 0, ⟨[["rtsp://192.0.2.5/stream"]], [("cam1", 0), ("alias", 0)]⟩) ∧
    (Patch demoEnv "alias" "rtsp://localhost/cam1" demoState).1 = some 0 ∧
    mapGet (Patch demoEnv "alias" "rtsp://localhost/cam1" demoState).2.streams "alias"
      = some 0 :=
  ⟨by decide,
    (C20_patch_alias_linking demoEnv demoState "alias" "rtsp://localhost/cam1" "cam1"
      ⟨"rtsp", "/cam1"⟩ 0 (by decide) rfl (by decide) (by decide) (by decide)).1,
    (C20_patch_alias_linking demoEnv demoState "alias" "rtsp://localhost/cam1" "cam1"
      ⟨"rtsp", "/cam1"⟩ 0 (by decide) rfl (by decide) (by decide) (by decide)).2.1⟩

end Streams
